import Mathlib

/-!
Verification of the remote-administration library (roguewave).

This file shallowly embeds the command builder and runner (`src/command.rs`),
the local command runner (`src/local.rs`), the output pumps, and the recipes
(`src/recipes/apt.rs`, `src/recipes/rsync.rs`, `src/recipes/postgres.rs`)
as executable Lean definitions, and proves or refutes the specified claims.

Modelling conventions:
- byte streams are `List Nat` (each element < 256 where it matters);
- Rust `String` values that cross the process boundary (captured output)
  are represented by their UTF-8 byte lists;
- machine integers (`i32` exit codes) are `Int`;
- child processes and the filesystem are an explicit environment record:
  the runner is a pure function of the command and that environment;
- fallible code returns `Except`.
-/

/-- Log severities of the `log` crate (`log::Level`). -/
inductive LogLevel where
  | error
  | warn
  | info
  | debug
  | trace
deriving DecidableEq, Repr

/-- One structured log record: a severity and the UTF-8 bytes of the message. -/
structure LogRecord where
  level : LogLevel
  text : List Nat
deriving DecidableEq, Repr

/-- UTF-8 encoding of one Unicode scalar value (standard multi-byte layout). -/
def utf8EncodeCp (c : Nat) : List Nat :=
  if c < 0x80 then [c]
  else if c < 0x800 then [0xC0 + c / 0x40, 0x80 + c % 0x40]
  else if c < 0x10000 then
    [0xE0 + c / 0x1000, 0x80 + (c / 0x40) % 0x40, 0x80 + c % 0x40]
  else
    [0xF0 + c / 0x40000, 0x80 + (c / 0x1000) % 0x40, 0x80 + (c / 0x40) % 0x40, 0x80 + c % 0x40]

/-- UTF-8 bytes of a Lean string (used to place literal texts in byte-level logs). -/
def strBytes (s : String) : List Nat :=
  (s.data.map (fun ch => utf8EncodeCp ch.toNat)).flatten

/-- Whether a byte is a UTF-8 continuation byte (`0x80..=0xBF`). -/
def contByte (b : Nat) : Bool := decide (0x80 ≤ b ∧ b ≤ 0xBF)

/-- Classification of a UTF-8 lead byte, per the table used by Rust's
`str::from_utf8`: number of continuation bytes and the admissible range of
the first continuation byte. `none` means the byte can not start a character. -/
def leadInfo (b : Nat) : Option (Nat × Nat × Nat) :=
  if b < 0x80 then some (0, 0, 0)
  else if 0xC2 ≤ b ∧ b ≤ 0xDF then some (1, 0x80, 0xBF)
  else if b = 0xE0 then some (2, 0xA0, 0xBF)
  else if b = 0xED then some (2, 0x80, 0x9F)
  else if 0xE1 ≤ b ∧ b ≤ 0xEF then some (2, 0x80, 0xBF)
  else if b = 0xF0 then some (3, 0x90, 0xBF)
  else if 0xF1 ≤ b ∧ b ≤ 0xF3 then some (3, 0x80, 0xBF)
  else if b = 0xF4 then some (3, 0x80, 0x8F)
  else none

/-- UTF-8 validity of a byte list: the acceptance condition of Rust's
`std::str::from_utf8` (Unicode Table 3-7). -/
def utf8Valid : List Nat → Bool
  | [] => true
  | b :: rest =>
    match leadInfo b with
    | none => false
    | some (0, _, _) => utf8Valid rest
    | some (1, lo, hi) =>
      match rest with
      | c1 :: r => decide (lo ≤ c1 ∧ c1 ≤ hi) && utf8Valid r
      | [] => false
    | some (2, lo, hi) =>
      match rest with
      | c1 :: c2 :: r => decide (lo ≤ c1 ∧ c1 ≤ hi) && contByte c2 && utf8Valid r
      | _ => false
    | some (3, lo, hi) =>
      match rest with
      | c1 :: c2 :: c3 :: r =>
        decide (lo ≤ c1 ∧ c1 ≤ hi) && contByte c2 && contByte c3 && utf8Valid r
      | _ => false
    | some (_ + 4, _, _) => false

example : utf8Valid (strBytes "héllo✓") = true := by decide
example : utf8Valid [0xC3] = false := by decide
example : utf8Valid [0xFF, 0x20] = false := by decide
example : utf8Valid [0xED, 0xA0, 0x80] = false := by decide

theorem leadInfo_zero {b lo hi : Nat} (h : leadInfo b = some (0, lo, hi)) : b < 0x80 := by
  unfold leadInfo at h
  repeat' split at h
  all_goals (try exact (Option.noConfusion h))
  all_goals rw [Option.some.injEq, Prod.mk.injEq, Prod.mk.injEq] at h
  all_goals omega

theorem leadInfo_pos_lo {b k lo hi : Nat} (h : leadInfo b = some (k + 1, lo, hi)) :
    0x80 ≤ lo ∧ 0x80 ≤ b := by
  unfold leadInfo at h
  repeat' split at h
  all_goals (try exact (Option.noConfusion h))
  all_goals rw [Option.some.injEq, Prod.mk.injEq, Prod.mk.injEq] at h
  all_goals omega

theorem leadInfo_k_le {b k lo hi : Nat} (h : leadInfo b = some (k, lo, hi)) : k ≤ 3 := by
  unfold leadInfo at h
  repeat' split at h
  all_goals (try exact (Option.noConfusion h))
  all_goals rw [Option.some.injEq, Prod.mk.injEq, Prod.mk.injEq] at h
  all_goals omega

theorem contByte_ge {c : Nat} (h : contByte c = true) : 0x80 ≤ c := by
  unfold contByte at h
  simp at h
  exact h.1

theorem utf8Valid_cons0 {b : Nat} {lo hi : Nat} (l : List Nat)
    (h : leadInfo b = some (0, lo, hi)) : utf8Valid (b :: l) = utf8Valid l := by
  conv_lhs => unfold utf8Valid
  rw [h]

theorem utf8Valid_cons1 {b : Nat} {lo hi : Nat} (c1 : Nat) (r : List Nat)
    (h : leadInfo b = some (1, lo, hi)) :
    utf8Valid (b :: c1 :: r) = (decide (lo ≤ c1 ∧ c1 ≤ hi) && utf8Valid r) := by
  conv_lhs => unfold utf8Valid
  rw [h]

theorem utf8Valid_cons1_nil {b : Nat} {lo hi : Nat}
    (h : leadInfo b = some (1, lo, hi)) : utf8Valid [b] = false := by
  conv_lhs => unfold utf8Valid
  rw [h]

theorem utf8Valid_cons2 {b : Nat} {lo hi : Nat} (c1 c2 : Nat) (r : List Nat)
    (h : leadInfo b = some (2, lo, hi)) :
    utf8Valid (b :: c1 :: c2 :: r) =
      (decide (lo ≤ c1 ∧ c1 ≤ hi) && contByte c2 && utf8Valid r) := by
  conv_lhs => unfold utf8Valid
  rw [h]

theorem utf8Valid_cons3 {b : Nat} {lo hi : Nat} (c1 c2 c3 : Nat) (r : List Nat)
    (h : leadInfo b = some (3, lo, hi)) :
    utf8Valid (b :: c1 :: c2 :: c3 :: r) =
      (decide (lo ≤ c1 ∧ c1 ≤ hi) && contByte c2 && contByte c3 && utf8Valid r) := by
  conv_lhs => unfold utf8Valid
  rw [h]

theorem utf8Valid_cons_none {b : Nat} (l : List Nat)
    (h : leadInfo b = none) : utf8Valid (b :: l) = false := by
  conv_lhs => unfold utf8Valid
  rw [h]

/-- Cut the shortest prefix of `v` ending with a newline byte: the segment
(newline included) and the remainder. `none` when `v` holds no newline.
This mirrors `vec.iter().position(|i| *i == b'\n')` followed by
`vec.drain(..=index)` in the output pumps. -/
def takeToNl : List Nat → Option (List Nat × List Nat)
  | [] => none
  | b :: rest =>
    if b = 10 then some ([10], rest)
    else
      match takeToNl rest with
      | some (seg, r) => some (b :: seg, r)
      | none => none

/-- Split a byte stream into its newline-terminated segments (newline kept)
and the trailing bytes after the last newline. -/
def splitLines : List Nat → List (List Nat) × List Nat
  | [] => ([], [])
  | b :: rest =>
    if b = 10 then
      ([10] :: (splitLines rest).1, (splitLines rest).2)
    else
      match splitLines rest with
      | ([], rem) => ([], b :: rem)
      | (seg :: segs, rem) => ((b :: seg) :: segs, rem)

example : splitLines (strBytes "ab\ncd\nef") =
    ([strBytes "ab\n", strBytes "cd\n"], strBytes "ef") := by decide

theorem takeToNl_append_eq {v seg r : List Nat} (w : List Nat)
    (h : takeToNl v = some (seg, r)) : takeToNl (v ++ w) = some (seg, r ++ w) := by
  induction v generalizing seg r with
  | nil => simp [takeToNl] at h
  | cons b rest ih =>
    simp only [takeToNl] at h
    rw [List.cons_append]
    simp only [takeToNl]
    by_cases hb : b = 10
    · rw [if_pos hb] at h ⊢
      simp only [Option.some.injEq, Prod.mk.injEq] at h
      obtain ⟨rfl, rfl⟩ := h
      simp
    · simp only [if_neg hb] at h ⊢
      cases hr : takeToNl rest with
      | none => rw [hr] at h; simp at h
      | some p =>
        obtain ⟨seg0, r0⟩ := p
        rw [hr] at h
        simp only [Option.some.injEq, Prod.mk.injEq] at h
        obtain ⟨rfl, rfl⟩ := h
        rw [ih hr]

theorem takeToNl_some_parts {v seg r : List Nat}
    (h : takeToNl v = some (seg, r)) : v = seg ++ r ∧ seg ≠ [] := by
  induction v generalizing seg r with
  | nil => simp [takeToNl] at h
  | cons b rest ih =>
    simp only [takeToNl] at h
    by_cases hb : b = 10
    · rw [if_pos hb] at h
      simp only [Option.some.injEq, Prod.mk.injEq] at h
      obtain ⟨rfl, rfl⟩ := h
      simp [hb]
    · simp only [if_neg hb] at h
      cases hr : takeToNl rest with
      | none => rw [hr] at h; simp at h
      | some p =>
        obtain ⟨seg0, r0⟩ := p
        rw [hr] at h
        simp only [Option.some.injEq, Prod.mk.injEq] at h
        obtain ⟨rfl, rfl⟩ := h
        obtain ⟨e1, _⟩ := ih hr
        exact ⟨by rw [e1]; simp, by simp⟩

theorem takeToNl_len {v seg r : List Nat}
    (h : takeToNl v = some (seg, r)) : r.length < v.length := by
  obtain ⟨e1, e2⟩ := takeToNl_some_parts h
  subst e1
  have : 0 < seg.length := List.length_pos.mpr e2
  simp [List.length_append]
  omega

theorem takeToNl_none_no_nl {v : List Nat} (h : takeToNl v = none) : 10 ∉ v := by
  induction v with
  | nil => simp
  | cons b rest ih =>
    simp only [takeToNl] at h
    by_cases hb : b = 10
    · simp [hb] at h
    · simp only [if_neg hb] at h
      cases hr : takeToNl rest with
      | none =>
        intro hc
        rcases List.mem_cons.mp hc with h' | h'
        · exact hb h'.symm
        · exact ih hr h'
      | some p =>
        obtain ⟨a, bb⟩ := p
        rw [hr] at h
        simp at h

theorem splitLines_of_takeToNl_some {v seg r : List Nat}
    (h : takeToNl v = some (seg, r)) :
    splitLines v = (seg :: (splitLines r).1, (splitLines r).2) := by
  induction v generalizing seg r with
  | nil => simp [takeToNl] at h
  | cons b rest ih =>
    simp only [takeToNl] at h
    by_cases hb : b = 10
    · rw [if_pos hb] at h
      simp only [Option.some.injEq, Prod.mk.injEq] at h
      obtain ⟨rfl, rfl⟩ := h
      subst hb
      simp [splitLines]
    · simp only [if_neg hb] at h
      cases hr : takeToNl rest with
      | none => rw [hr] at h; simp at h
      | some p =>
        obtain ⟨seg0, r0⟩ := p
        rw [hr] at h
        simp only [Option.some.injEq, Prod.mk.injEq] at h
        obtain ⟨rfl, rfl⟩ := h
        conv_lhs => rw [splitLines]
        rw [if_neg hb, ih hr]

theorem splitLines_of_takeToNl_none {v : List Nat}
    (h : takeToNl v = none) : splitLines v = ([], v) := by
  induction v with
  | nil => simp [splitLines]
  | cons b rest ih =>
    simp only [takeToNl] at h
    by_cases hb : b = 10
    · simp [hb] at h
    · simp only [if_neg hb] at h
      cases hr : takeToNl rest with
      | none =>
        conv_lhs => rw [splitLines]
        rw [if_neg hb, ih hr]
      | some p =>
        obtain ⟨a, bb⟩ := p
        rw [hr] at h
        simp at h

theorem splitLines_cons_nl (rest : List Nat) :
    splitLines (10 :: rest) = ([10] :: (splitLines rest).1, (splitLines rest).2) := by
  rw [splitLines]
  simp

theorem splitLines_cons_other_nil {b : Nat} (hb : b ≠ 10) {rest rem : List Nat}
    (h : splitLines rest = ([], rem)) : splitLines (b :: rest) = ([], b :: rem) := by
  rw [splitLines, if_neg hb, h]

theorem splitLines_cons_other_cons {b : Nat} (hb : b ≠ 10) {rest seg rem : List Nat}
    {segs : List (List Nat)}
    (h : splitLines rest = (seg :: segs, rem)) :
    splitLines (b :: rest) = ((b :: seg) :: segs, rem) := by
  rw [splitLines, if_neg hb, h]

theorem splitLines_flatten (v : List Nat) :
    (splitLines v).1.flatten ++ (splitLines v).2 = v := by
  induction v with
  | nil => simp [splitLines]
  | cons b rest ih =>
    by_cases hb : b = 10
    · subst hb
      rw [splitLines_cons_nl]
      simpa using ih
    · cases h : splitLines rest with
      | mk segs rem =>
        rw [h] at ih
        cases segs with
        | nil =>
          rw [splitLines_cons_other_nil hb h]
          simp at ih ⊢
          simp [ih]
        | cons seg ss =>
          rw [splitLines_cons_other_cons hb h]
          simp only [List.flatten_cons, List.cons_append, List.append_assoc] at ih ⊢
          rw [ih]

theorem splitLines_rest_no_nl (v : List Nat) : 10 ∉ (splitLines v).2 := by
  induction v with
  | nil => simp [splitLines]
  | cons b rest ih =>
    by_cases hb : b = 10
    · subst hb
      rw [splitLines_cons_nl]
      simpa using ih
    · cases h : splitLines rest with
      | mk segs rem =>
        rw [h] at ih
        cases segs with
        | nil =>
          rw [splitLines_cons_other_nil hb h]
          simp at ih ⊢
          exact ⟨fun hx => hb hx.symm, ih⟩
        | cons seg ss =>
          rw [splitLines_cons_other_cons hb h]
          simpa using ih

theorem splitLines_append (A B : List Nat) :
    splitLines (A ++ B) =
      ((splitLines A).1 ++ (splitLines ((splitLines A).2 ++ B)).1,
        (splitLines ((splitLines A).2 ++ B)).2) := by
  induction A with
  | nil => simp [splitLines]
  | cons b A' ih =>
    rw [List.cons_append]
    by_cases hb : b = 10
    · subst hb
      rw [splitLines_cons_nl (A' ++ B), splitLines_cons_nl A']
      rw [ih]
      simp
    · cases h : splitLines A' with
      | mk segs rem =>
        cases segs with
        | nil =>
          have hrem : rem = A' := by
            have := splitLines_flatten A'
            rw [h] at this
            simpa using this
          subst hrem
          rw [splitLines_cons_other_nil hb h]
          simp
        | cons seg ss =>
          have ih' : splitLines (A' ++ B) =
              (seg :: (ss ++ (splitLines (rem ++ B)).1), (splitLines (rem ++ B)).2) := by
            rw [ih, h]
            simp
          rw [splitLines_cons_other_cons hb ih', splitLines_cons_other_cons hb h]
          simp

theorem utf8Valid_cons2_nil {b lo hi : Nat} (h : leadInfo b = some (2, lo, hi)) :
    utf8Valid [b] = false := by
  conv_lhs => unfold utf8Valid
  rw [h]

theorem utf8Valid_cons2_one {b lo hi c1 : Nat} (h : leadInfo b = some (2, lo, hi)) :
    utf8Valid [b, c1] = false := by
  conv_lhs => unfold utf8Valid
  rw [h]

theorem utf8Valid_cons3_nil {b lo hi : Nat} (h : leadInfo b = some (3, lo, hi)) :
    utf8Valid [b] = false := by
  conv_lhs => unfold utf8Valid
  rw [h]

theorem utf8Valid_cons3_one {b lo hi c1 : Nat} (h : leadInfo b = some (3, lo, hi)) :
    utf8Valid [b, c1] = false := by
  conv_lhs => unfold utf8Valid
  rw [h]

theorem utf8Valid_cons3_two {b lo hi c1 c2 : Nat} (h : leadInfo b = some (3, lo, hi)) :
    utf8Valid [b, c1, c2] = false := by
  conv_lhs => unfold utf8Valid
  rw [h]

theorem utf8Valid_split_aux : ∀ n v, v.length ≤ n → utf8Valid v = true →
    (∀ seg ∈ (splitLines v).1, utf8Valid seg = true) ∧ utf8Valid (splitLines v).2 = true := by
  intro n
  induction n with
  | zero =>
    intro v hlen _
    have hv0 : v = [] := List.length_eq_zero.mp (Nat.le_zero.mp hlen)
    subst hv0
    exact ⟨by simp [splitLines], by decide⟩
  | succ n ih =>
    intro v hlen hv
    cases v with
    | nil => exact ⟨by simp [splitLines], by decide⟩
    | cons b rest =>
      cases hbi : leadInfo b with
      | none =>
        rw [utf8Valid_cons_none rest hbi] at hv
        exact absurd hv (by simp)
      | some t =>
        obtain ⟨k, lo, hi⟩ := t
        have hk3 : k ≤ 3 := leadInfo_k_le hbi
        interval_cases k
        · -- one-byte character (ASCII range)
          have hblt : b < 0x80 := leadInfo_zero hbi
          rw [utf8Valid_cons0 rest hbi] at hv
          have hlen' : rest.length ≤ n := by simp at hlen; omega
          obtain ⟨hsegs, htr⟩ := ih rest hlen' hv
          by_cases hb10 : b = 10
          · subst hb10
            rw [splitLines_cons_nl]
            refine ⟨?_, htr⟩
            intro seg hseg
            rcases List.mem_cons.mp hseg with h' | h'
            · subst h'; decide
            · exact hsegs seg h'
          · cases h : splitLines rest with
            | mk segs rem =>
              rw [h] at hsegs htr
              cases segs with
              | nil =>
                rw [splitLines_cons_other_nil hb10 h]
                refine ⟨by simp, ?_⟩
                show utf8Valid (b :: rem) = true
                rw [utf8Valid_cons0 rem hbi]
                simpa using htr
              | cons seg ss =>
                rw [splitLines_cons_other_cons hb10 h]
                refine ⟨?_, by simpa using htr⟩
                intro sg hsg
                rcases List.mem_cons.mp hsg with h' | h'
                · subst h'
                  rw [utf8Valid_cons0 seg hbi]
                  exact hsegs seg (by simp)
                · exact hsegs sg (by simp [h'])
        · -- two-byte character
          obtain ⟨hlo, hb128⟩ := leadInfo_pos_lo hbi
          have hbne : b ≠ 10 := by omega
          cases rest with
          | nil =>
            rw [utf8Valid_cons1_nil hbi] at hv
            exact absurd hv (by simp)
          | cons c1 r =>
            rw [utf8Valid_cons1 c1 r hbi] at hv
            simp only [Bool.and_eq_true, decide_eq_true_eq] at hv
            obtain ⟨hc1, hr⟩ := hv
            have hc1ne : c1 ≠ 10 := by omega
            have hlen' : r.length ≤ n := by simp at hlen; omega
            obtain ⟨hsegs, htr⟩ := ih r hlen' hr
            cases h : splitLines r with
            | mk segs rem =>
              rw [h] at hsegs htr
              cases segs with
              | nil =>
                have h1 : splitLines (c1 :: r) = ([], c1 :: rem) :=
                  splitLines_cons_other_nil hc1ne h
                rw [splitLines_cons_other_nil hbne h1]
                refine ⟨by simp, ?_⟩
                show utf8Valid (b :: c1 :: rem) = true
                rw [utf8Valid_cons1 c1 rem hbi]
                simp only [Bool.and_eq_true, decide_eq_true_eq]
                exact ⟨hc1, by simpa using htr⟩
              | cons seg ss =>
                have h1 : splitLines (c1 :: r) = ((c1 :: seg) :: ss, rem) :=
                  splitLines_cons_other_cons hc1ne h
                rw [splitLines_cons_other_cons hbne h1]
                refine ⟨?_, by simpa using htr⟩
                intro sg hsg
                rcases List.mem_cons.mp hsg with h' | h'
                · subst h'
                  rw [utf8Valid_cons1 c1 seg hbi]
                  simp only [Bool.and_eq_true, decide_eq_true_eq]
                  exact ⟨hc1, hsegs seg (by simp)⟩
                · exact hsegs sg (by simp [h'])
        · -- three-byte character
          obtain ⟨hlo, hb128⟩ := leadInfo_pos_lo hbi
          have hbne : b ≠ 10 := by omega
          cases rest with
          | nil =>
            rw [utf8Valid_cons2_nil hbi] at hv
            exact absurd hv (by simp)
          | cons c1 r1 =>
            cases r1 with
            | nil =>
              rw [utf8Valid_cons2_one hbi] at hv
              exact absurd hv (by simp)
            | cons c2 r =>
              rw [utf8Valid_cons2 c1 c2 r hbi] at hv
              simp only [Bool.and_eq_true, decide_eq_true_eq] at hv
              obtain ⟨⟨hc1, hc2⟩, hr⟩ := hv
              have hc1ne : c1 ≠ 10 := by omega
              have hc2ne : c2 ≠ 10 := by
                have := contByte_ge hc2
                omega
              have hlen' : r.length ≤ n := by simp at hlen; omega
              obtain ⟨hsegs, htr⟩ := ih r hlen' hr
              cases h : splitLines r with
              | mk segs rem =>
                rw [h] at hsegs htr
                cases segs with
                | nil =>
                  have h1 : splitLines (c2 :: r) = ([], c2 :: rem) :=
                    splitLines_cons_other_nil hc2ne h
                  have h2 : splitLines (c1 :: c2 :: r) = ([], c1 :: c2 :: rem) :=
                    splitLines_cons_other_nil hc1ne h1
                  rw [splitLines_cons_other_nil hbne h2]
                  refine ⟨by simp, ?_⟩
                  show utf8Valid (b :: c1 :: c2 :: rem) = true
                  rw [utf8Valid_cons2 c1 c2 rem hbi]
                  simp only [Bool.and_eq_true, decide_eq_true_eq]
                  exact ⟨⟨hc1, hc2⟩, by simpa using htr⟩
                | cons seg ss =>
                  have h1 : splitLines (c2 :: r) = ((c2 :: seg) :: ss, rem) :=
                    splitLines_cons_other_cons hc2ne h
                  have h2 : splitLines (c1 :: c2 :: r) = ((c1 :: c2 :: seg) :: ss, rem) :=
                    splitLines_cons_other_cons hc1ne h1
                  rw [splitLines_cons_other_cons hbne h2]
                  refine ⟨?_, by simpa using htr⟩
                  intro sg hsg
                  rcases List.mem_cons.mp hsg with h' | h'
                  · subst h'
                    rw [utf8Valid_cons2 c1 c2 seg hbi]
                    simp only [Bool.and_eq_true, decide_eq_true_eq]
                    exact ⟨⟨hc1, hc2⟩, hsegs seg (by simp)⟩
                  · exact hsegs sg (by simp [h'])
        · -- four-byte character
          obtain ⟨hlo, hb128⟩ := leadInfo_pos_lo hbi
          have hbne : b ≠ 10 := by omega
          cases rest with
          | nil =>
            rw [utf8Valid_cons3_nil hbi] at hv
            exact absurd hv (by simp)
          | cons c1 r1 =>
            cases r1 with
            | nil =>
              rw [utf8Valid_cons3_one hbi] at hv
              exact absurd hv (by simp)
            | cons c2 r2 =>
              cases r2 with
              | nil =>
                rw [utf8Valid_cons3_two hbi] at hv
                exact absurd hv (by simp)
              | cons c3 r =>
                rw [utf8Valid_cons3 c1 c2 c3 r hbi] at hv
                simp only [Bool.and_eq_true, decide_eq_true_eq] at hv
                obtain ⟨⟨⟨hc1, hc2⟩, hc3⟩, hr⟩ := hv
                have hc1ne : c1 ≠ 10 := by omega
                have hc2ne : c2 ≠ 10 := by
                  have := contByte_ge hc2
                  omega
                have hc3ne : c3 ≠ 10 := by
                  have := contByte_ge hc3
                  omega
                have hlen' : r.length ≤ n := by simp at hlen; omega
                obtain ⟨hsegs, htr⟩ := ih r hlen' hr
                cases h : splitLines r with
                | mk segs rem =>
                  rw [h] at hsegs htr
                  cases segs with
                  | nil =>
                    have h1 : splitLines (c3 :: r) = ([], c3 :: rem) :=
                      splitLines_cons_other_nil hc3ne h
                    have h2 : splitLines (c2 :: c3 :: r) = ([], c2 :: c3 :: rem) :=
                      splitLines_cons_other_nil hc2ne h1
                    have h3 : splitLines (c1 :: c2 :: c3 :: r) = ([], c1 :: c2 :: c3 :: rem) :=
                      splitLines_cons_other_nil hc1ne h2
                    rw [splitLines_cons_other_nil hbne h3]
                    refine ⟨by simp, ?_⟩
                    show utf8Valid (b :: c1 :: c2 :: c3 :: rem) = true
                    rw [utf8Valid_cons3 c1 c2 c3 rem hbi]
                    simp only [Bool.and_eq_true, decide_eq_true_eq]
                    exact ⟨⟨⟨hc1, hc2⟩, hc3⟩, by simpa using htr⟩
                  | cons seg ss =>
                    have h1 : splitLines (c3 :: r) = ((c3 :: seg) :: ss, rem) :=
                      splitLines_cons_other_cons hc3ne h
                    have h2 : splitLines (c2 :: c3 :: r) = ((c2 :: c3 :: seg) :: ss, rem) :=
                      splitLines_cons_other_cons hc2ne h1
                    have h3 : splitLines (c1 :: c2 :: c3 :: r) =
                        ((c1 :: c2 :: c3 :: seg) :: ss, rem) :=
                      splitLines_cons_other_cons hc1ne h2
                    rw [splitLines_cons_other_cons hbne h3]
                    refine ⟨?_, by simpa using htr⟩
                    intro sg hsg
                    rcases List.mem_cons.mp hsg with h' | h'
                    · subst h'
                      rw [utf8Valid_cons3 c1 c2 c3 seg hbi]
                      simp only [Bool.and_eq_true, decide_eq_true_eq]
                      exact ⟨⟨⟨hc1, hc2⟩, hc3⟩, hsegs seg (by simp)⟩
                    · exact hsegs sg (by simp [h'])

theorem utf8Valid_splitLines {v : List Nat} (hv : utf8Valid v = true) :
    (∀ seg ∈ (splitLines v).1, utf8Valid seg = true) ∧
      utf8Valid (splitLines v).2 = true :=
  utf8Valid_split_aux v.length v (Nat.le_refl _) hv

theorem splitLines_no_nl {v : List Nat} (h : (10:Nat) ∉ v) : splitLines v = ([], v) := by
  induction v with
  | nil => simp [splitLines]
  | cons b rest ih =>
    have hb : b ≠ 10 := by
      intro hb
      exact h (by simp [hb])
    have h' : (10:Nat) ∉ rest := fun hx => h (by simp [hx])
    exact splitLines_cons_other_nil hb (ih h')

/-- State of one output pump: the unconsumed buffer, the capture so far,
the log records emitted so far, and whether a UTF-8 decoding error occurred. -/
structure PumpState where
  buf : List Nat
  capture : List Nat
  logs : List LogRecord
  failed : Bool
deriving DecidableEq, Repr

/-- The log record for one complete line: the configured prefix followed by
the line without its trailing newline
(`log!(log_level, "{}{}", prefix, &line[..line.len() - 1])`). -/
def lineLog (lvl : LogLevel) (pfx : String) (seg : List Nat) : LogRecord :=
  ⟨lvl, strBytes pfx ++ seg.dropLast⟩

/-- Fuel-indexed inner loop of the remote `handle_output`
(`while let Some(index) = vec.iter().position(|i| *i == b'\n')`): cut each
newline-terminated segment from the buffer, check it with `from_utf8`, emit
one log record and push the line (newline included) onto the capture.
Any `fuel ≥ vec.length` gives the loop's behavior (see `drainBufF_fuel`). -/
def drainBufF (lvl : LogLevel) (pfx : String) :
    Nat → List Nat → List Nat → List LogRecord → PumpState
  | 0, vec, out, logs => ⟨vec, out, logs, false⟩
  | fuel + 1, vec, out, logs =>
    match takeToNl vec with
    | none => ⟨vec, out, logs, false⟩
    | some (seg, r) =>
      if utf8Valid seg then
        drainBufF lvl pfx fuel r (out ++ seg) (logs ++ [lineLog lvl pfx seg])
      else ⟨vec, out, logs, true⟩

def drainBuf (lvl : LogLevel) (pfx : String) (vec out : List Nat)
    (logs : List LogRecord) : PumpState :=
  drainBufF lvl pfx vec.length vec out logs

theorem drainBufF_nil (lvl : LogLevel) (pfx : String) (fuel : Nat)
    (out : List Nat) (logs : List LogRecord) :
    drainBufF lvl pfx fuel [] out logs = ⟨[], out, logs, false⟩ := by
  cases fuel with
  | zero => rfl
  | succ f => rfl

theorem drainBufF_fuel (lvl : LogLevel) (pfx : String) :
    ∀ fuel fuel' vec out logs, vec.length ≤ fuel → vec.length ≤ fuel' →
      drainBufF lvl pfx fuel vec out logs = drainBufF lvl pfx fuel' vec out logs := by
  intro fuel
  induction fuel with
  | zero =>
    intro fuel' vec out logs h _
    have : vec = [] := List.length_eq_zero.mp (Nat.le_zero.mp h)
    subst this
    rw [drainBufF_nil, drainBufF_nil]
  | succ f ihf =>
    intro fuel' vec out logs h h'
    cases fuel' with
    | zero =>
      have : vec = [] := List.length_eq_zero.mp (Nat.le_zero.mp h')
      subst this
      rw [drainBufF_nil, drainBufF_nil]
    | succ f' =>
      show drainBufF lvl pfx (f + 1) vec out logs = drainBufF lvl pfx (f' + 1) vec out logs
      cases ht : takeToNl vec with
      | none => simp only [drainBufF, ht]
      | some p =>
        obtain ⟨seg, r⟩ := p
        have hlt := takeToNl_len ht
        simp only [drainBufF, ht]
        by_cases hseg : utf8Valid seg = true
        · rw [if_pos hseg, if_pos hseg]
          exact ihf f' r _ _ (by omega) (by omega)
        · rw [if_neg hseg, if_neg hseg]

theorem drainBuf_none {vec : List Nat} (h : takeToNl vec = none)
    (lvl : LogLevel) (pfx : String) (out : List Nat) (logs : List LogRecord) :
    drainBuf lvl pfx vec out logs = ⟨vec, out, logs, false⟩ := by
  unfold drainBuf
  cases vec with
  | nil => rw [drainBufF_nil]
  | cons b vs => simp only [List.length_cons, drainBufF, h]

theorem drainBuf_some_valid {vec seg r : List Nat} (h : takeToNl vec = some (seg, r))
    (hseg : utf8Valid seg = true)
    (lvl : LogLevel) (pfx : String) (out : List Nat) (logs : List LogRecord) :
    drainBuf lvl pfx vec out logs =
      drainBuf lvl pfx r (out ++ seg) (logs ++ [lineLog lvl pfx seg]) := by
  unfold drainBuf
  have hlt := takeToNl_len h
  cases hv : vec with
  | nil => rw [hv] at h; simp [takeToNl] at h
  | cons b vs =>
    rw [hv] at h hlt
    simp only [List.length_cons, drainBufF, h, if_pos hseg]
    exact drainBufF_fuel lvl pfx vs.length r.length r _ _ (by simp at hlt; omega) (le_refl _)

theorem drainBuf_some_invalid {vec seg r : List Nat} (h : takeToNl vec = some (seg, r))
    (hseg : utf8Valid seg = false)
    (lvl : LogLevel) (pfx : String) (out : List Nat) (logs : List LogRecord) :
    drainBuf lvl pfx vec out logs = ⟨vec, out, logs, true⟩ := by
  unfold drainBuf
  cases hv : vec with
  | nil => rw [hv] at h; simp [takeToNl] at h
  | cons b vs =>
    rw [hv] at h
    simp only [List.length_cons, drainBufF, h]
    rw [if_neg (by simp [hseg])]

theorem drainBuf_spec (lvl : LogLevel) (pfx : String) :
    ∀ n vec, vec.length ≤ n →
    (∀ seg ∈ (splitLines vec).1, utf8Valid seg = true) →
    ∀ out logs, drainBuf lvl pfx vec out logs =
      ⟨(splitLines vec).2, out ++ (splitLines vec).1.flatten,
        logs ++ (splitLines vec).1.map (lineLog lvl pfx), false⟩ := by
  intro n
  induction n with
  | zero =>
    intro vec hlen _ out logs
    have : vec = [] := List.length_eq_zero.mp (Nat.le_zero.mp hlen)
    subst this
    rw [drainBuf_none (by simp [takeToNl])]
    simp [splitLines]
  | succ n ihn =>
    intro vec hlen hsegs out logs
    cases ht : takeToNl vec with
    | none =>
      rw [drainBuf_none ht]
      rw [splitLines_of_takeToNl_none ht]
      simp
    | some p =>
      obtain ⟨seg, r⟩ := p
      have hsl := splitLines_of_takeToNl_some ht
      have hvalid : utf8Valid seg = true := by
        apply hsegs
        rw [hsl]
        simp
      rw [drainBuf_some_valid ht hvalid]
      have hlt := takeToNl_len ht
      have ih := ihn r (by omega) (by
        intro sg hsg
        apply hsegs
        rw [hsl]
        simp [hsg]) (out ++ seg) (logs ++ [lineLog lvl pfx seg])
      rw [ih, hsl]
      simp

/-- End-of-stream handling of the remote `handle_output`: any unterminated
trailing bytes are validated, logged once with the `[eof]` marker appended,
and pushed onto the capture unchanged. -/
def finishPump (lvl : LogLevel) (pfx : String) (vec out : List Nat)
    (logs : List LogRecord) : PumpState :=
  if vec = [] then ⟨[], out, logs, false⟩
  else if utf8Valid vec then
    ⟨[], out ++ vec, logs ++ [⟨lvl, strBytes pfx ++ vec ++ strBytes "[eof]"⟩], false⟩
  else ⟨vec, out, logs, true⟩

/-- Read loop of the remote `handle_output` (src/command.rs, lines 252-263):
each chunk delivered by `read_buf` is appended to the growing buffer, then all
complete lines are cut from the buffer; a read of size zero, or the end of the
chunk list, is EOF. `failed` records that `from_utf8` rejected a segment (the
pump task then returns that error). -/
def pumpChunks (lvl : LogLevel) (pfx : String) :
    List (List Nat) → List Nat → List Nat → List LogRecord → PumpState
  | [], vec, out, logs => finishPump lvl pfx vec out logs
  | c :: cs, vec, out, logs =>
    if c = [] then finishPump lvl pfx vec out logs
    else
      let s := drainBuf lvl pfx (vec ++ c) out logs
      if s.failed then s
      else pumpChunks lvl pfx cs s.buf s.capture s.logs

/-- Decidable equality for `Except` results, used to evaluate the model on
concrete inputs. -/
instance {e a : Type} [DecidableEq e] [DecidableEq a] : DecidableEq (Except e a) := fun x y =>
  match x, y with
  | .ok u, .ok v =>
    if h : u = v then .isTrue (by rw [h]) else .isFalse (fun hc => h (Except.ok.inj hc))
  | .error u, .error v =>
    if h : u = v then .isTrue (by rw [h]) else .isFalse (fun hc => h (Except.error.inj hc))
  | .ok _, .error _ => .isFalse (fun hc => Except.noConfusion hc)
  | .error _, .ok _ => .isFalse (fun hc => Except.noConfusion hc)

/-- Result of an output pump: its log records, and the captured bytes or a
UTF-8 decoding failure. -/
structure PumpOut where
  logs : List LogRecord
  capture : Except Unit (List Nat)
deriving DecidableEq, Repr

/-- The remote output pump `handle_output` (src/command.rs, lines 244-270), as
a function of the chunk sequence produced by the child's stream. -/
def handle_output (chunks : List (List Nat)) (lvl : LogLevel) (pfx : String) : PumpOut :=
  let s := pumpChunks lvl pfx chunks [] [] []
  ⟨s.logs, if s.failed then .error () else .ok s.capture⟩

/-- The bytes actually read from a stream: all chunks up to the first empty
read (`read_buf` returning 0 means EOF). -/
def effStream (chunks : List (List Nat)) : List Nat :=
  (chunks.takeWhile (fun c => !c.isEmpty)).flatten

/-- The log records an output pump emits for a given byte stream: one record
per newline-terminated line (newline stripped), and one `[eof]`-marked record
for a nonempty unterminated tail. -/
def pumpLogsSpec (lvl : LogLevel) (pfx : String) (stream : List Nat) : List LogRecord :=
  (splitLines stream).1.map (lineLog lvl pfx) ++
    (if (splitLines stream).2 = [] then []
     else [⟨lvl, strBytes pfx ++ (splitLines stream).2 ++ strBytes "[eof]"⟩])

theorem effStream_nil : effStream [] = [] := rfl

theorem effStream_cons_empty (cs : List (List Nat)) : effStream ([] :: cs) = [] := rfl

theorem effStream_cons {c : List Nat} (hc : c ≠ []) (cs : List (List Nat)) :
    effStream (c :: cs) = c ++ effStream cs := by
  unfold effStream
  rw [List.takeWhile_cons]
  have : (!c.isEmpty) = true := by
    cases c with
    | nil => exact absurd rfl hc
    | cons x xs => rfl
  rw [this]
  simp

theorem finishPump_spec (lvl : LogLevel) (pfx : String) {vec : List Nat}
    (hnl : (10:Nat) ∉ vec) (hval : utf8Valid vec = true)
    (out : List Nat) (logs : List LogRecord) :
    finishPump lvl pfx vec out logs =
      ⟨[], out ++ vec, logs ++ pumpLogsSpec lvl pfx vec, false⟩ := by
  unfold finishPump
  by_cases hv : vec = []
  · subst hv
    simp [pumpLogsSpec, splitLines]
  · rw [if_neg hv, if_pos hval]
    unfold pumpLogsSpec
    rw [splitLines_no_nl hnl]
    simp [hv]

theorem pumpChunks_spec (lvl : LogLevel) (pfx : String) :
    ∀ chunks vec out logs,
      (10:Nat) ∉ vec →
      (∀ seg ∈ (splitLines (vec ++ effStream chunks)).1, utf8Valid seg = true) →
      utf8Valid (splitLines (vec ++ effStream chunks)).2 = true →
      pumpChunks lvl pfx chunks vec out logs =
        ⟨[], out ++ vec ++ effStream chunks,
          logs ++ pumpLogsSpec lvl pfx (vec ++ effStream chunks), false⟩ := by
  intro chunks
  induction chunks with
  | nil =>
    intro vec out logs hnl _ htr
    rw [effStream_nil, List.append_nil] at htr ⊢
    have hval : utf8Valid vec = true := by
      rw [splitLines_no_nl hnl] at htr
      exact htr
    show finishPump lvl pfx vec out logs = _
    rw [finishPump_spec lvl pfx hnl hval]
    simp
  | cons c cs ihc =>
    intro vec out logs hnl hsegs htr
    by_cases hc : c = []
    · subst hc
      rw [effStream_cons_empty, List.append_nil] at hsegs htr
      have hval : utf8Valid vec = true := by
        rw [splitLines_no_nl hnl] at htr
        exact htr
      show (if ([] : List Nat) = [] then finishPump lvl pfx vec out logs else _) = _
      rw [if_pos rfl, finishPump_spec lvl pfx hnl hval]
      rw [effStream_cons_empty]
      simp
    · rw [effStream_cons hc] at hsegs htr
      have hassoc : vec ++ (c ++ effStream cs) = (vec ++ c) ++ effStream cs := by
        simp
      rw [hassoc] at hsegs htr
      have hdec := splitLines_append (vec ++ c) (effStream cs)
      -- segments of the buffered part are a prefix of the segments of the whole
      have hsegs1 : ∀ seg ∈ (splitLines (vec ++ c)).1, utf8Valid seg = true := by
        intro seg hseg
        apply hsegs
        rw [hdec]
        simp [hseg]
      have hdrain := drainBuf_spec lvl pfx (vec ++ c).length (vec ++ c) (le_refl _)
        hsegs1 out logs
      show (if c = [] then _ else _) = _
      rw [if_neg hc]
      simp only [hdrain]
      have hrec := ihc (splitLines (vec ++ c)).2
        (out ++ (splitLines (vec ++ c)).1.flatten)
        (logs ++ (splitLines (vec ++ c)).1.map (lineLog lvl pfx))
        (splitLines_rest_no_nl (vec ++ c))
        (by
          intro seg hseg
          apply hsegs
          rw [hdec]
          simp [hseg])
        (by
          rw [hdec] at htr
          exact htr)
      rw [hrec, effStream_cons hc]
      have hff : ¬(false = true) := by simp
      rw [if_neg hff]
      simp only [PumpState.mk.injEq]
      refine ⟨trivial, ?_, ?_, trivial⟩
      · -- captures agree: the drained lines plus the remaining buffer
        -- reassemble the bytes read so far
        have hfl := splitLines_flatten (vec ++ c)
        calc out ++ (splitLines (vec ++ c)).1.flatten ++ (splitLines (vec ++ c)).2
              ++ effStream cs
            = out ++ (((splitLines (vec ++ c)).1.flatten ++ (splitLines (vec ++ c)).2)
              ++ effStream cs) := by simp
          _ = out ++ ((vec ++ c) ++ effStream cs) := by rw [hfl]
          _ = out ++ vec ++ (c ++ effStream cs) := by simp
      · -- logs agree, by the append decomposition of the segment lists
        unfold pumpLogsSpec
        rw [hassoc, hdec]
        simp

theorem handle_output_spec (chunks : List (List Nat)) (lvl : LogLevel) (pfx : String)
    (h : utf8Valid (effStream chunks) = true) :
    handle_output chunks lvl pfx =
      ⟨pumpLogsSpec lvl pfx (effStream chunks), .ok (effStream chunks)⟩ := by
  obtain ⟨hsegs, htr⟩ := utf8Valid_splitLines h
  have hp := pumpChunks_spec lvl pfx chunks [] [] []
    (by simp) (by simpa using hsegs) (by simpa using htr)
  unfold handle_output
  rw [hp]
  simp

/-- Strip one trailing carriage return, as `BufRead::lines` does after
removing the newline (CRLF endings lose their `\r`). -/
def stripCR (l : List Nat) : List Nat :=
  if l.getLast? = some 13 then l.dropLast else l

/-- Fuel-indexed loop of the local `handle_output` (src/local.rs, lines
154-163): `BufReader::lines` yields each line without its terminator (a lone
`\n`, or a `\r\n` pair, removed; the final line may be unterminated and is
then kept exactly as read); each line must be valid UTF-8;
`writeln!(output, "{}", line)` appends the line plus a fresh `\n` to the
capture, and `log!` emits one record per line; there is no `[eof]` marker.
Any `fuel > v.length` gives the loop's behavior. -/
def localLinesF (lvl : LogLevel) (pfx : String) :
    Nat → List Nat → List Nat → List LogRecord → PumpState
  | 0, v, out, logs => ⟨v, out, logs, false⟩
  | fuel + 1, v, out, logs =>
    match takeToNl v with
    | some (seg, r) =>
      if utf8Valid seg then
        localLinesF lvl pfx fuel r (out ++ stripCR seg.dropLast ++ [10])
          (logs ++ [⟨lvl, strBytes pfx ++ stripCR seg.dropLast⟩])
      else ⟨v, out, logs, true⟩
    | none =>
      if v = [] then ⟨[], out, logs, false⟩
      else if utf8Valid v then
        ⟨[], out ++ v ++ [10], logs ++ [⟨lvl, strBytes pfx ++ v⟩], false⟩
      else ⟨v, out, logs, true⟩

def localLoop (lvl : LogLevel) (pfx : String) (v out : List Nat)
    (logs : List LogRecord) : PumpState :=
  localLinesF lvl pfx (v.length + 1) v out logs

/-- The local output pump `handle_output` (src/local.rs, lines 154-163), as a
function of the bytes of the child's stream. -/
def local_handle_output (bytes : List Nat) (lvl : LogLevel) (pfx : String) : PumpOut :=
  let s := localLoop lvl pfx bytes [] []
  ⟨s.logs, if s.failed then .error () else .ok s.capture⟩

theorem localLinesF_fuel (lvl : LogLevel) (pfx : String) :
    ∀ fuel fuel' v out logs, v.length < fuel → v.length < fuel' →
      localLinesF lvl pfx fuel v out logs = localLinesF lvl pfx fuel' v out logs := by
  intro fuel
  induction fuel with
  | zero => intro fuel' v out logs h _; omega
  | succ f ihf =>
    intro fuel' v out logs h h'
    cases fuel' with
    | zero => omega
    | succ f' =>
      show localLinesF lvl pfx (f + 1) v out logs = localLinesF lvl pfx (f' + 1) v out logs
      cases ht : takeToNl v with
      | none => simp only [localLinesF, ht]
      | some p =>
        obtain ⟨seg, r⟩ := p
        have hlt := takeToNl_len ht
        simp only [localLinesF, ht]
        by_cases hseg : utf8Valid seg = true
        · rw [if_pos hseg, if_pos hseg]
          exact ihf f' r _ _ (by omega) (by omega)
        · rw [if_neg hseg, if_neg hseg]

theorem localLoop_some_valid {v seg r : List Nat} (h : takeToNl v = some (seg, r))
    (hseg : utf8Valid seg = true) (lvl : LogLevel) (pfx : String)
    (out : List Nat) (logs : List LogRecord) :
    localLoop lvl pfx v out logs =
      localLoop lvl pfx r (out ++ stripCR seg.dropLast ++ [10])
        (logs ++ [⟨lvl, strBytes pfx ++ stripCR seg.dropLast⟩]) := by
  unfold localLoop
  have hlt := takeToNl_len h
  show localLinesF lvl pfx (v.length + 1) v out logs = _
  rw [show v.length + 1 = (v.length) + 1 from rfl]
  simp only [localLinesF, h, if_pos hseg]
  exact localLinesF_fuel lvl pfx v.length (r.length + 1) r _ _ (by omega) (by omega)

theorem localLoop_none {v : List Nat} (h : takeToNl v = none)
    (lvl : LogLevel) (pfx : String) (out : List Nat) (logs : List LogRecord) :
    localLoop lvl pfx v out logs =
      (if v = [] then ⟨[], out, logs, false⟩
       else if utf8Valid v then
         ⟨[], out ++ v ++ [10], logs ++ [⟨lvl, strBytes pfx ++ v⟩], false⟩
       else ⟨v, out, logs, true⟩ : PumpState) := by
  unfold localLoop
  simp only [localLinesF, h]

/-- Capture produced by the local pump for a whole stream: every line is
re-terminated with a bare newline, including an unterminated final line. -/
def localCaptureSpec (stream : List Nat) : List Nat :=
  ((splitLines stream).1.map (fun seg => stripCR seg.dropLast ++ [10])).flatten ++
    (if (splitLines stream).2 = [] then [] else (splitLines stream).2 ++ [10])

/-- Log records produced by the local pump for a whole stream: one per line,
no `[eof]` marker anywhere. -/
def localLogsSpec (lvl : LogLevel) (pfx : String) (stream : List Nat) : List LogRecord :=
  (splitLines stream).1.map (fun seg => ⟨lvl, strBytes pfx ++ stripCR seg.dropLast⟩) ++
    (if (splitLines stream).2 = [] then []
     else [⟨lvl, strBytes pfx ++ (splitLines stream).2⟩])

theorem localLoop_spec (lvl : LogLevel) (pfx : String) :
    ∀ n v, v.length ≤ n →
    (∀ seg ∈ (splitLines v).1, utf8Valid seg = true) →
    utf8Valid (splitLines v).2 = true →
    ∀ out logs, localLoop lvl pfx v out logs =
      ⟨[], out ++ localCaptureSpec v, logs ++ localLogsSpec lvl pfx v, false⟩ := by
  intro n
  induction n with
  | zero =>
    intro v hlen _ _ out logs
    have : v = [] := List.length_eq_zero.mp (Nat.le_zero.mp hlen)
    subst this
    rw [localLoop_none (by simp [takeToNl])]
    simp [localCaptureSpec, localLogsSpec, splitLines]
  | succ n ihn =>
    intro v hlen hsegs htr out logs
    cases ht : takeToNl v with
    | none =>
      have hsl := splitLines_of_takeToNl_none ht
      rw [hsl] at htr
      rw [localLoop_none ht]
      by_cases hv : v = []
      · subst hv
        simp [localCaptureSpec, localLogsSpec, splitLines]
      · rw [if_neg hv, if_pos htr]
        unfold localCaptureSpec localLogsSpec
        rw [hsl]
        simp [hv]
    | some p =>
      obtain ⟨seg, r⟩ := p
      have hsl := splitLines_of_takeToNl_some ht
      have hvalid : utf8Valid seg = true := by
        apply hsegs
        rw [hsl]
        simp
      rw [localLoop_some_valid ht hvalid]
      have hlt := takeToNl_len ht
      have ih := ihn r (by omega) (by
        intro sg hsg
        apply hsegs
        rw [hsl]
        simp [hsg]) (by
        have := htr
        rw [hsl] at this
        exact this) (out ++ stripCR seg.dropLast ++ [10])
        (logs ++ [⟨lvl, strBytes pfx ++ stripCR seg.dropLast⟩])
      rw [ih]
      unfold localCaptureSpec localLogsSpec
      rw [hsl]
      simp

theorem local_handle_output_spec (bytes : List Nat) (lvl : LogLevel) (pfx : String)
    (h : utf8Valid bytes = true) :
    local_handle_output bytes lvl pfx =
      ⟨localLogsSpec lvl pfx bytes, .ok (localCaptureSpec bytes)⟩ := by
  obtain ⟨hsegs, htr⟩ := utf8Valid_splitLines h
  have hp := localLoop_spec lvl pfx bytes.length bytes (le_refl _) hsegs htr [] []
  unfold local_handle_output
  rw [hp]
  simp

/-- Escapes applied by Rust's `Debug` formatting of one character inside a
double-quoted string literal (`char::escape_debug`, restricted to the cases
that matter here: quote, backslash, newline, carriage return, tab, NUL, and a
unicode escape for remaining control characters below 0x20; printable
characters pass through unchanged). -/
def rustEscapeChar (ch : Char) : String :=
  if ch = '"' then "\\\""
  else if ch = '\\' then "\\\\"
  else if ch = '\n' then "\\n"
  else if ch = '\r' then "\\r"
  else if ch = '\t' then "\\t"
  else if ch.toNat = 0 then "\\0"
  else if ch.toNat < 0x20 then "\\u\x7b" ++ (Nat.toDigits 16 ch.toNat).asString ++ "\x7d"
  else String.singleton ch

/-- Rust's `Debug` rendering of a string (`format!("{arg:?}")`). -/
def rustDebugStr (s : String) : String :=
  "\"" ++ String.join (s.data.map rustEscapeChar) ++ "\""

/-- Kind of one remote command argument (src/command.rs `enum ArgKind`):
`escaped` values are shell-quoted by the transport, `raw` values are passed
to the remote shell verbatim (an `OsString` in the source, modelled by its
textual contents). -/
inductive ArgKind where
  | escaped (value : String)
  | raw (value : String)
deriving DecidableEq, Repr

/-- One remote command argument (src/command.rs `struct Arg`): its kind plus
an optional display placeholder shown in logs instead of the value. -/
structure Arg where
  kind : ArgKind
  display_placeholder : Option String
deriving DecidableEq, Repr

def Arg.escaped (value : String) : Arg := ⟨ArgKind.escaped value, none⟩

def Arg.raw (value : String) : Arg := ⟨ArgKind.raw value, none⟩

/-- The `fmt::Debug` rendering of one argument (src/command.rs, lines 50-61):
a redacted argument prints its placeholder verbatim; an escaped argument
prints like a Rust string literal; a raw argument prints as `Raw("...")`. -/
def Arg.debugFmt : Arg → String
  | ⟨_, some placeholder⟩ => placeholder
  | ⟨ArgKind.escaped a, none⟩ => rustDebugStr a
  | ⟨ArgKind.raw a, none⟩ => "Raw(" ++ rustDebugStr a ++ ")"

/-- The `fmt::Debug` rendering of a whole argv (`{:?}` on `Vec<Arg>`). -/
def debugArgs (args : List Arg) : String :=
  "[" ++ String.intercalate ", " (args.map Arg.debugFmt) ++ "]"

/-- A remote command (src/command.rs `struct Command`, minus the borrowed
session handle): argv plus log severities and the allow-failure flag. -/
structure Command where
  command : List Arg
  command_log_level : LogLevel
  stdout_log_level : LogLevel
  stderr_log_level : LogLevel
  allow_failure : Bool
deriving DecidableEq, Repr

/-- `Session::command`: every element of the initial argv is escaped;
default severities are info/info/error and failures are not allowed. -/
def Session.command (argv : List String) : Command :=
  ⟨argv.map Arg.escaped, .info, .info, .error, false⟩

/-- `Session::raw_command`: every element of the initial argv is raw. -/
def Session.raw_command (argv : List String) : Command :=
  ⟨argv.map Arg.raw, .info, .info, .error, false⟩

def Command.arg (c : Command) (a : String) : Command :=
  { c with command := c.command ++ [Arg.escaped a] }

def Command.raw_arg (c : Command) (a : String) : Command :=
  { c with command := c.command ++ [Arg.raw a] }

/-- `Command::redacted_arg`: append an escaped argument whose log rendering is
replaced by `placeholder`. -/
def Command.redacted_arg (c : Command) (a placeholder : String) : Command :=
  { c with command := c.command ++ [⟨ArgKind.escaped a, some placeholder⟩] }

def Command.args (c : Command) (as : List String) : Command :=
  { c with command := c.command ++ as.map Arg.escaped }

def Command.raw_args (c : Command) (as : List String) : Command :=
  { c with command := c.command ++ as.map Arg.raw }

def Command.prepend_args (c : Command) (as : List String) : Command :=
  { c with command := as.map Arg.escaped ++ c.command }

/-- `Command::user`: wrap the command in `sudo --login --user <user>` when a
user is given. -/
def Command.user (c : Command) (u : Option String) : Command :=
  match u with
  | some u => c.prepend_args ["sudo", "--login", "--user", u]
  | none => c

def Command.allowFailure (c : Command) : Command := { c with allow_failure := true }

def Command.hide_stdout (c : Command) : Command := { c with stdout_log_level := .trace }

def Command.hide_stderr (c : Command) : Command := { c with stderr_log_level := .trace }

def Command.hide_all_output (c : Command) : Command := c.hide_stdout.hide_stderr

def Command.hide_command (c : Command) : Command := { c with command_log_level := .trace }

/-- Behavior of the environment for one spawned child process: whether the
spawn and the wait succeed, the exit status returned by the wait (`none`
models termination by a signal, where `status.code()` is `None`), and the
chunk sequences the two output pipes deliver. -/
structure ChildEnv where
  spawn_ok : Bool
  wait_ok : Bool
  exit_status : Option Int
  stdout_chunks : List (List Nat)
  stderr_chunks : List (List Nat)
deriving Repr

/-- Information about an output of an executed command (`struct
CommandOutput`); captured text is represented by its UTF-8 bytes. -/
structure CommandOutput where
  exit_code : Int
  stdout : List Nat
  stderr : List Nat
deriving DecidableEq, Repr

/-- Everything observable about one call to the remote `run`: its return
value, whether a subprocess was spawned, the argv handed to the SSH
transport, whether each pump task was awaited before returning, and the log
records emitted. -/
structure RunResult where
  result : Except String CommandOutput
  spawned : Bool
  transport : Option (List ArgKind)
  stdout_joined : Bool
  stderr_joined : Bool
  logs : List LogRecord
deriving DecidableEq, Repr

/-- The remote `Command::run` (src/command.rs, lines 146-191), transcribed
clause by clause.
1. An empty argv is rejected before anything is spawned.
2. One `running {:?}` record is logged at the command severity.
3. The argv is handed to the transport, each argument per its kind.
4. After a successful spawn the two pump tasks drain the pipes concurrently
   and emit their log records whether or not they are later awaited.
5. A failed wait, and a missing exit code (signal termination), are errors.
6. A non-zero exit code without `allow_failure` is an error raised *before*
   the pump tasks are awaited; `stdout_joined` and `stderr_joined` record
   which `JoinHandle`s were awaited on each path.
7. Otherwise the captures are awaited, stdout first; a capture error
   (invalid UTF-8) propagates as soon as it is seen.
Error texts of the environment (spawn and wait failures, the UTF-8 error
payloads) are summarized by fixed strings; the texts produced by the
function itself are those of its `bail!` and `context` calls. -/
def Command.run (c : Command) (env : ChildEnv) : RunResult :=
  if c.command = [] then
    ⟨.error "cannot run empty command", false, none, false, false, []⟩
  else
    let cmdLog : LogRecord :=
      ⟨c.command_log_level, strBytes ("running " ++ debugArgs c.command)⟩
    let transport := c.command.map Arg.kind
    if env.spawn_ok = false then
      ⟨.error "spawn failed", false, some transport, false, false, [cmdLog]⟩
    else
      let outPump := handle_output env.stdout_chunks c.stdout_log_level "stdout: "
      let errPump := handle_output env.stderr_chunks c.stderr_log_level "stderr: "
      let logs := cmdLog :: (outPump.logs ++ errPump.logs)
      if env.wait_ok = false then
        ⟨.error "wait failed", true, some transport, false, false, logs⟩
      else
        match env.exit_status with
        | none => ⟨.error "missing exit code", true, some transport, false, false, logs⟩
        | some code =>
          if c.allow_failure = false ∧ code ≠ 0 then
            ⟨.error ("failed with exit code " ++ toString code), true, some transport,
              false, false, logs⟩
          else
            match outPump.capture with
            | .error _ =>
              ⟨.error "invalid utf-8 in stdout", true, some transport, true, false, logs⟩
            | .ok outB =>
              match errPump.capture with
              | .error _ =>
                ⟨.error "invalid utf-8 in stderr", true, some transport, true, true, logs⟩
              | .ok errB =>
                ⟨.ok ⟨code, outB, errB⟩, true, some transport, true, true, logs⟩

/-- `Command::exit_code` (src/command.rs, lines 195-200): run with failures
allowed and keep only the exit code. -/
def Command.exit_code (c : Command) (env : ChildEnv) : Except String Int :=
  ((c.allowFailure).run env).result.map (fun output => output.exit_code)

/-- A local command (src/local.rs `struct LocalCommand`): plain string argv
(no raw/escaped distinction, no redaction) plus log severities and the
allow-failure flag. -/
structure LocalCommand where
  command : List String
  command_log_level : LogLevel
  stdout_log_level : LogLevel
  stderr_log_level : LogLevel
  allow_failure : Bool
deriving DecidableEq, Repr

/-- `LocalCommand::new`: defaults are info/info/error and failures not
allowed. -/
def LocalCommand.new (argv : List String) : LocalCommand :=
  ⟨argv, .info, .info, .error, false⟩

def LocalCommand.arg (c : LocalCommand) (a : String) : LocalCommand :=
  { c with command := c.command ++ [a] }

def LocalCommand.args (c : LocalCommand) (as : List String) : LocalCommand :=
  { c with command := c.command ++ as }

def LocalCommand.allowFailure (c : LocalCommand) : LocalCommand :=
  { c with allow_failure := true }

def LocalCommand.hide_stdout (c : LocalCommand) : LocalCommand :=
  { c with stdout_log_level := .trace }

def LocalCommand.hide_stderr (c : LocalCommand) : LocalCommand :=
  { c with stderr_log_level := .trace }

def LocalCommand.hide_all_output (c : LocalCommand) : LocalCommand :=
  c.hide_stdout.hide_stderr

def LocalCommand.hide_command (c : LocalCommand) : LocalCommand :=
  { c with command_log_level := .trace }

/-- Behavior of the environment for one local child process. The local pumps
read through a `BufReader`, so each stream is just its byte sequence. -/
structure LocalChildEnv where
  spawn_ok : Bool
  wait_ok : Bool
  exit_status : Option Int
  stdout_bytes : List Nat
  stderr_bytes : List Nat
deriving Repr

/-- Everything observable about one call to the local `run`. -/
structure LocalRunResult where
  result : Except String CommandOutput
  spawned : Bool
  stdout_joined : Bool
  stderr_joined : Bool
  logs : List LogRecord
deriving DecidableEq, Repr

/-- The `fmt::Debug` rendering of a `Vec<String>` argv. -/
def debugStrList (xs : List String) : String :=
  "[" ++ String.intercalate ", " (xs.map rustDebugStr) ++ "]"

/-- The local `LocalCommand::run` (src/local.rs, lines 66-101), transcribed
clause by clause. It mirrors the remote `run` except that the pumps run on OS
threads and the command log line reads `running local command: {:?}`.
As in the remote runner, the non-zero-exit `bail!` fires *before* the two
pump threads are joined; on the success path stdout is joined first and a
capture error propagates before stderr is joined. -/
def LocalCommand.run (c : LocalCommand) (env : LocalChildEnv) : LocalRunResult :=
  if c.command = [] then
    ⟨.error "cannot run empty command", false, false, false, []⟩
  else
    let cmdLog : LogRecord :=
      ⟨c.command_log_level, strBytes ("running local command: " ++ debugStrList c.command)⟩
    if env.spawn_ok = false then
      ⟨.error "spawn failed", false, false, false, [cmdLog]⟩
    else
      let outPump := local_handle_output env.stdout_bytes c.stdout_log_level "stdout: "
      let errPump := local_handle_output env.stderr_bytes c.stderr_log_level "stderr: "
      let logs := cmdLog :: (outPump.logs ++ errPump.logs)
      if env.wait_ok = false then
        ⟨.error "wait failed", true, false, false, logs⟩
      else
        match env.exit_status with
        | none => ⟨.error "missing exit code", true, false, false, logs⟩
        | some code =>
          if c.allow_failure = false ∧ code ≠ 0 then
            ⟨.error ("local command failed with exit code " ++ toString code), true,
              false, false, logs⟩
          else
            match outPump.capture with
            | .error _ => ⟨.error "invalid utf-8 in stdout", true, true, false, logs⟩
            | .ok outB =>
              match errPump.capture with
              | .error _ => ⟨.error "invalid utf-8 in stderr", true, true, true, logs⟩
              | .ok errB => ⟨.ok ⟨code, outB, errB⟩, true, true, true, logs⟩

/-- `LocalCommand::exit_code` (src/local.rs, lines 105-110). -/
def LocalCommand.exit_code (c : LocalCommand) (env : LocalChildEnv) : Except String Int :=
  ((c.allowFailure).run env).result.map (fun output => output.exit_code)

/-- Observables of the remote `run` that do not depend on the exit path: for
a nonempty argv the transport always receives the argv's kinds (values
included), and the log output is the `running` record followed, once the
spawn succeeded, by the two pumps' records. -/
theorem run_obs (c : Command) (env : ChildEnv) (h : c.command ≠ []) :
    (c.run env).transport = some (c.command.map Arg.kind) ∧
    (c.run env).logs =
      (⟨c.command_log_level, strBytes ("running " ++ debugArgs c.command)⟩ : LogRecord) ::
        (if env.spawn_ok = false then []
         else (handle_output env.stdout_chunks c.stdout_log_level "stdout: ").logs ++
              (handle_output env.stderr_chunks c.stderr_log_level "stderr: ").logs) := by
  by_cases hs : env.spawn_ok = false
  · simp [Command.run, h, hs]
  · by_cases hw : env.wait_ok = false
    · simp [Command.run, h, hs, hw]
    · cases hex : env.exit_status with
      | none => simp [Command.run, h, hs, hw, hex]
      | some n =>
        by_cases haf : c.allow_failure = false ∧ n ≠ 0
        · simp [Command.run, h, hs, hw, hex, haf]
        · cases hout : (handle_output env.stdout_chunks c.stdout_log_level "stdout: ").capture with
          | error e => simp [Command.run, h, hs, hw, hex, haf, hout]
          | ok outB =>
            cases herr : (handle_output env.stderr_chunks c.stderr_log_level "stderr: ").capture with
            | error e => simp [Command.run, h, hs, hw, hex, haf, hout, herr]
            | ok errB => simp [Command.run, h, hs, hw, hex, haf, hout, herr]

/-- C1. For every remote command: `run` on an empty argv returns the
construction error `cannot run empty command` and no subprocess is spawned
(nothing is even handed to the transport); when the spawned child exits
non-zero and `allow_failure` was not set, `run` returns the error
`failed with exit code <code>`, which carries the exit code; when the child
terminates by a signal (the wait yields no exit code), `run` returns an
error; otherwise — the wait produced exit code `n`, `allow_failure` is set
or `n = 0`, and both captures decode as UTF-8 — `run` returns a
`CommandOutput` carrying `n` verbatim (non-zero allowed under
`allow_failure`). -/
theorem spec_c1_run_exit_paths (c : Command) (env : ChildEnv) :
    (c.command = [] →
      (c.run env).result = .error "cannot run empty command" ∧
      (c.run env).spawned = false ∧ (c.run env).transport = none)
    ∧ (∀ n : Int, c.command ≠ [] → env.spawn_ok = true → env.wait_ok = true →
        env.exit_status = some n → n ≠ 0 → c.allow_failure = false →
        (c.run env).result = .error ("failed with exit code " ++ toString n))
    ∧ (c.command ≠ [] → env.spawn_ok = true → env.wait_ok = true →
        env.exit_status = none → (c.run env).result = .error "missing exit code")
    ∧ (∀ (n : Int) outB errB outL errL, c.command ≠ [] → env.spawn_ok = true →
        env.wait_ok = true → env.exit_status = some n →
        (c.allow_failure = true ∨ n = 0) →
        handle_output env.stdout_chunks c.stdout_log_level "stdout: " = ⟨outL, .ok outB⟩ →
        handle_output env.stderr_chunks c.stderr_log_level "stderr: " = ⟨errL, .ok errB⟩ →
        (c.run env).result = .ok ⟨n, outB, errB⟩) := by
  refine ⟨?_, ?_, ?_, ?_⟩
  · intro h
    simp [Command.run, h]
  · intro n hne hs hw hex hn0 haf
    simp [Command.run, hne, hs, hw, hex, haf, hn0]
  · intro hne hs hw hex
    simp [Command.run, hne, hs, hw, hex]
  · intro n outB errB outL errL hne hs hw hex hok hout herr
    rcases hok with haf | hn0
    · simp [Command.run, hne, hs, hw, hex, haf, hout, herr]
    · subst hn0
      by_cases haf : c.allow_failure = false
      · simp [Command.run, hne, hs, hw, hex, haf, hout, herr]
      · simp [Command.run, hne, hs, hw, hex, haf, hout, herr]

/-- C1 witness: the four exit paths evaluated at concrete commands and
environments. -/
theorem spec_c1_run_exit_paths_witness :
    ((Session.command []).run ⟨true, true, some 0, [], []⟩).result
        = .error "cannot run empty command"
    ∧ ((Session.command ["false"]).run ⟨true, true, some 1, [], []⟩).result
        = .error ("failed with exit code " ++ toString (1 : Int))
    ∧ ((Session.command ["cat"]).run ⟨true, true, none, [], []⟩).result
        = .error "missing exit code"
    ∧ ((Session.command ["true"]).allowFailure.run ⟨true, true, some 7, [], []⟩).result
        = .ok ⟨7, [], []⟩ := by
  refine ⟨?_, ?_, ?_, ?_⟩
  · exact ((spec_c1_run_exit_paths _ _).1 rfl).1
  · exact (spec_c1_run_exit_paths _ _).2.1 1 (by decide) rfl rfl rfl (by decide) rfl
  · exact (spec_c1_run_exit_paths _ _).2.2.1 (by decide) rfl rfl rfl
  · exact (spec_c1_run_exit_paths _ _).2.2.2 7 [] [] [] [] (by decide) rfl rfl rfl
      (Or.inl rfl) (by decide) (by decide)

/-- C2 counterexample. On the non-zero-exit-without-allow-failure path the
claim fails: `run` returns the failure error without awaiting either pump
task — the `bail!` at src/command.rs line 184 precedes the
`stdout_task.await` / `stderr_task.await` of the success path, so on this
exit path the pumps are *not* joined before `run` returns. -/
theorem spec_c2_pumps_counterexample :
    ((Session.command ["false"]).run ⟨true, true, some 1, [], []⟩).result
        = .error "failed with exit code 1"
    ∧ ((Session.command ["false"]).run ⟨true, true, some 1, [], []⟩).stdout_joined = false
    ∧ ((Session.command ["false"]).run ⟨true, true, some 1, [], []⟩).stderr_joined = false := by
  refine ⟨?_, by decide, by decide⟩
  decide

/-- C2 (amended). Both pumps are joined before `run` returns only on the
paths that reach the capture stage: whenever the remote or the local `run`
returns a `CommandOutput`, both pumps were awaited. On the error exit paths
the original claim fails: when the child exits non-zero without
`allow_failure`, and when the exit code is missing, `run` (remote and local
alike) returns without awaiting either pump; the pump tasks keep draining in
the background and their captures are lost. -/
theorem spec_c2_pumps_joined_amended (c : Command) (env : ChildEnv)
    (lc : LocalCommand) (lenv : LocalChildEnv) :
    (∀ output, (c.run env).result = .ok output →
      (c.run env).stdout_joined = true ∧ (c.run env).stderr_joined = true)
    ∧ (∀ n : Int, env.wait_ok = true → env.exit_status = some n → n ≠ 0 →
        c.allow_failure = false →
        (c.run env).stdout_joined = false ∧ (c.run env).stderr_joined = false)
    ∧ (env.exit_status = none →
        (c.run env).stdout_joined = false ∧ (c.run env).stderr_joined = false)
    ∧ (∀ output, (lc.run lenv).result = .ok output →
        (lc.run lenv).stdout_joined = true ∧ (lc.run lenv).stderr_joined = true)
    ∧ (∀ n : Int, lenv.wait_ok = true → lenv.exit_status = some n → n ≠ 0 →
        lc.allow_failure = false →
        (lc.run lenv).stdout_joined = false ∧ (lc.run lenv).stderr_joined = false)
    ∧ (lenv.exit_status = none →
        (lc.run lenv).stdout_joined = false ∧ (lc.run lenv).stderr_joined = false) := by
  refine ⟨?_, ?_, ?_, ?_, ?_, ?_⟩
  · intro output hok
    by_cases hne : c.command = []
    · simp [Command.run, hne] at hok
    · by_cases hs : env.spawn_ok = false
      · simp [Command.run, hne, hs] at hok
      · by_cases hw : env.wait_ok = false
        · simp [Command.run, hne, hs, hw] at hok
        · cases hex : env.exit_status with
          | none => simp [Command.run, hne, hs, hw, hex] at hok
          | some n =>
            by_cases haf : c.allow_failure = false ∧ n ≠ 0
            · simp [Command.run, hne, hs, hw, hex, haf] at hok
            · cases hout : (handle_output env.stdout_chunks c.stdout_log_level "stdout: ").capture with
              | error e => simp [Command.run, hne, hs, hw, hex, haf, hout] at hok
              | ok outB =>
                cases herr : (handle_output env.stderr_chunks c.stderr_log_level "stderr: ").capture with
                | error e => simp [Command.run, hne, hs, hw, hex, haf, hout, herr] at hok
                | ok errB => simp [Command.run, hne, hs, hw, hex, haf, hout, herr]
  · intro n hw hex hn0 haf
    by_cases hne : c.command = []
    · simp [Command.run, hne]
    · by_cases hs : env.spawn_ok = false
      · simp [Command.run, hne, hs]
      · simp [Command.run, hne, hs, hw, hex, haf, hn0]
  · intro hex
    by_cases hne : c.command = []
    · simp [Command.run, hne]
    · by_cases hs : env.spawn_ok = false
      · simp [Command.run, hne, hs]
      · by_cases hw : env.wait_ok = false
        · simp [Command.run, hne, hs, hw]
        · simp [Command.run, hne, hs, hw, hex]
  · intro output hok
    by_cases hne : lc.command = []
    · simp [LocalCommand.run, hne] at hok
    · by_cases hs : lenv.spawn_ok = false
      · simp [LocalCommand.run, hne, hs] at hok
      · by_cases hw : lenv.wait_ok = false
        · simp [LocalCommand.run, hne, hs, hw] at hok
        · cases hex : lenv.exit_status with
          | none => simp [LocalCommand.run, hne, hs, hw, hex] at hok
          | some n =>
            by_cases haf : lc.allow_failure = false ∧ n ≠ 0
            · simp [LocalCommand.run, hne, hs, hw, hex, haf] at hok
            · cases hout : (local_handle_output lenv.stdout_bytes lc.stdout_log_level "stdout: ").capture with
              | error e => simp [LocalCommand.run, hne, hs, hw, hex, haf, hout] at hok
              | ok outB =>
                cases herr : (local_handle_output lenv.stderr_bytes lc.stderr_log_level "stderr: ").capture with
                | error e => simp [LocalCommand.run, hne, hs, hw, hex, haf, hout, herr] at hok
                | ok errB => simp [LocalCommand.run, hne, hs, hw, hex, haf, hout, herr]
  · intro n hw hex hn0 haf
    by_cases hne : lc.command = []
    · simp [LocalCommand.run, hne]
    · by_cases hs : lenv.spawn_ok = false
      · simp [LocalCommand.run, hne, hs]
      · simp [LocalCommand.run, hne, hs, hw, hex, haf, hn0]
  · intro hex
    by_cases hne : lc.command = []
    · simp [LocalCommand.run, hne]
    · by_cases hs : lenv.spawn_ok = false
      · simp [LocalCommand.run, hne, hs]
      · by_cases hw : lenv.wait_ok = false
        · simp [LocalCommand.run, hne, hs, hw]
        · simp [LocalCommand.run, hne, hs, hw, hex]

/-- C2 witness: the amended join guarantees at concrete inputs, on the
success path and on both failing paths. -/
theorem spec_c2_pumps_joined_amended_witness :
    (((Session.command ["true"]).run ⟨true, true, some 0, [], []⟩).stdout_joined = true
      ∧ ((Session.command ["true"]).run ⟨true, true, some 0, [], []⟩).stderr_joined = true)
    ∧ (((Session.command ["false"]).run ⟨true, true, some 1, [], []⟩).stdout_joined = false
      ∧ ((Session.command ["false"]).run ⟨true, true, some 1, [], []⟩).stderr_joined = false)
    ∧ (((LocalCommand.new ["cat"]).run ⟨true, true, none, [], []⟩).stdout_joined = false
      ∧ ((LocalCommand.new ["cat"]).run ⟨true, true, none, [], []⟩).stderr_joined = false) := by
  refine ⟨?_, ?_, ?_⟩
  · exact (spec_c2_pumps_joined_amended (Session.command ["true"]) ⟨true, true, some 0, [], []⟩
      (LocalCommand.new ["true"]) ⟨true, true, some 0, [], []⟩).1 ⟨0, [], []⟩ (by decide)
  · exact (spec_c2_pumps_joined_amended (Session.command ["false"]) ⟨true, true, some 1, [], []⟩
      (LocalCommand.new ["true"]) ⟨true, true, some 0, [], []⟩).2.1 1 rfl rfl (by decide) (by decide)
  · exact (spec_c2_pumps_joined_amended (Session.command ["true"]) ⟨true, true, some 0, [], []⟩
      (LocalCommand.new ["cat"]) ⟨true, true, none, [], []⟩).2.2.2.2.2 rfl

/-- C4. For every remote and local command, with any argv and builder
configuration, `exit_code()` returns exactly
`allow_failure().run().map(|o| o.exit_code)`; in particular it never errors
merely because the exit code is non-zero: whenever spawn and wait succeed
with some exit code and both captures decode, `exit_code` returns that code,
zero or not. -/
theorem spec_c4_exit_code (c : Command) (env : ChildEnv)
    (lc : LocalCommand) (lenv : LocalChildEnv) :
    c.exit_code env = ((c.allowFailure).run env).result.map (fun o => o.exit_code)
    ∧ lc.exit_code lenv = ((lc.allowFailure).run lenv).result.map (fun o => o.exit_code)
    ∧ (∀ (n : Int) outB errB outL errL, c.command ≠ [] → env.spawn_ok = true →
        env.wait_ok = true → env.exit_status = some n →
        handle_output env.stdout_chunks c.stdout_log_level "stdout: " = ⟨outL, .ok outB⟩ →
        handle_output env.stderr_chunks c.stderr_log_level "stderr: " = ⟨errL, .ok errB⟩ →
        c.exit_code env = .ok n)
    ∧ (∀ (n : Int) outB errB outL errL, lc.command ≠ [] → lenv.spawn_ok = true →
        lenv.wait_ok = true → lenv.exit_status = some n →
        local_handle_output lenv.stdout_bytes lc.stdout_log_level "stdout: " = ⟨outL, .ok outB⟩ →
        local_handle_output lenv.stderr_bytes lc.stderr_log_level "stderr: " = ⟨errL, .ok errB⟩ →
        lc.exit_code lenv = .ok n) := by
  refine ⟨rfl, rfl, ?_, ?_⟩
  · intro n outB errB outL errL hne hs hw hex hout herr
    unfold Command.exit_code
    simp [Command.run, Command.allowFailure, hne, hs, hw, hex, hout, herr, Except.map]
  · intro n outB errB outL errL hne hs hw hex hout herr
    unfold LocalCommand.exit_code
    simp [LocalCommand.run, LocalCommand.allowFailure, hne, hs, hw, hex, hout, herr, Except.map]

/-- C4 witness: `exit_code` on a failing command returns the non-zero code
instead of an error. -/
theorem spec_c4_exit_code_witness :
    (Session.command ["cat", "/tmp/10"]).exit_code ⟨true, true, some 1, [], []⟩ = .ok 1
    ∧ (LocalCommand.new ["cat", "/tmp/10"]).exit_code ⟨true, true, some 1, [], []⟩ = .ok 1 := by
  constructor
  · exact (spec_c4_exit_code (Session.command ["cat", "/tmp/10"]) ⟨true, true, some 1, [], []⟩
      (LocalCommand.new ["true"]) ⟨true, true, some 0, [], []⟩).2.2.1 1 [] [] [] []
      (by decide) rfl rfl rfl (by decide) (by decide)
  · exact (spec_c4_exit_code (Session.command ["true"]) ⟨true, true, some 0, [], []⟩
      (LocalCommand.new ["cat", "/tmp/10"]) ⟨true, true, some 1, [], []⟩).2.2.2 1 [] [] [] []
      (by decide) rfl rfl rfl (by decide) (by decide)

/-- Replacing the value of a redacted argument leaves the argv's debug
rendering unchanged: the placeholder is printed in its position. -/
theorem debugArgs_redacted_value (xs ys : List Arg) (R R' P : String) :
    debugArgs (xs ++ [⟨ArgKind.escaped R, some P⟩] ++ ys)
      = debugArgs (xs ++ [⟨ArgKind.escaped R', some P⟩] ++ ys) := by
  unfold debugArgs
  simp [Arg.debugFmt]

/-- C5. For every command whose argv contains a redacted argument (value R,
placeholder P, at the position after `xs`), with any severities, flag and
environment: (i) the argv handed to the SSH transport carries R itself, at
that position; (ii) the `running <argv-debug>` record (the head of the
emitted log) renders the argv with `debugArgs`, and the debug rendering
shows P at R's position; (iii) no log record emitted by `run` depends on R —
the entire log output is unchanged when R is replaced by an arbitrary R',
so R never reaches the log sink. -/
theorem spec_c5_redaction (xs ys : List Arg) (R R' P : String)
    (lvlc lvlo lvle : LogLevel) (af : Bool) (env : ChildEnv) :
    ((Command.mk (xs ++ [⟨ArgKind.escaped R, some P⟩] ++ ys) lvlc lvlo lvle af).run env).transport
        = some (xs.map Arg.kind ++ [ArgKind.escaped R] ++ ys.map Arg.kind)
    ∧ ((Command.mk (xs ++ [⟨ArgKind.escaped R, some P⟩] ++ ys) lvlc lvlo lvle af).run env).logs.head?
        = some ⟨lvlc, strBytes ("running " ++
            debugArgs (xs ++ [⟨ArgKind.escaped R, some P⟩] ++ ys))⟩
    ∧ ((xs ++ [(⟨ArgKind.escaped R, some P⟩ : Arg)] ++ ys).map Arg.debugFmt)[xs.length]? = some P
    ∧ ((Command.mk (xs ++ [⟨ArgKind.escaped R, some P⟩] ++ ys) lvlc lvlo lvle af).run env).logs
        = ((Command.mk (xs ++ [⟨ArgKind.escaped R', some P⟩] ++ ys) lvlc lvlo lvle af).run env).logs := by
  have hne : (xs ++ [⟨ArgKind.escaped R, some P⟩] ++ ys : List Arg) ≠ [] := by simp
  have hne' : (xs ++ [⟨ArgKind.escaped R', some P⟩] ++ ys : List Arg) ≠ [] := by simp
  obtain ⟨ht, hl⟩ := run_obs
    (Command.mk (xs ++ [⟨ArgKind.escaped R, some P⟩] ++ ys) lvlc lvlo lvle af) env hne
  obtain ⟨ht', hl'⟩ := run_obs
    (Command.mk (xs ++ [⟨ArgKind.escaped R', some P⟩] ++ ys) lvlc lvlo lvle af) env hne'
  refine ⟨?_, ?_, ?_, ?_⟩
  · rw [ht]
    simp
  · rw [hl]
    rfl
  · rw [show (xs ++ [(⟨ArgKind.escaped R, some P⟩ : Arg)] ++ ys).map Arg.debugFmt
        = xs.map Arg.debugFmt ++ ([P] ++ ys.map Arg.debugFmt) from by
      simp [Arg.debugFmt]]
    rw [List.getElem?_append_right (by simp)]
    simp
  · rw [hl, hl', debugArgs_redacted_value xs ys R R' P]

/-- C3 counterexample. The local thread pump violates the claim: feeding it
the single byte `a` (0x61) with no terminating newline, the capture is
`"a\n"` — a newline the stream never contained — instead of the exact
concatenation `"a"` of the bytes read, and no emitted record carries the
`[eof]` marker the claim requires for unterminated trailing bytes. -/
theorem spec_c3_capture_counterexample :
    (local_handle_output [97] LogLevel.info "stdout: ").capture = .ok [97, 10]
    ∧ (local_handle_output [97] LogLevel.info "stdout: ").capture ≠ .ok [97]
    ∧ ∀ rec ∈ (local_handle_output [97] LogLevel.info "stdout: ").logs,
        rec.text ≠ strBytes "stdout: " ++ [97] ++ strBytes "[eof]" := by
  refine ⟨by decide, by decide, by decide⟩

/-- C3 (amended). Remote async pump: when all bytes read from the stream are
valid UTF-8, the capture equals the exact concatenation of the bytes read
(newlines preserved), and the unterminated trailing bytes, if any, are
appended to the capture unchanged and logged once with the `[eof]` marker
(`pumpLogsSpec`). The local thread pump differs from the claim: lines are
re-terminated — each line contributes `stripCR(line)` plus a fresh newline
to the capture (so CRLF endings lose their `\r` and an unterminated final
line gains a newline, `localCaptureSpec`) — and no `[eof]` marker is ever
logged (`localLogsSpec`). -/
theorem spec_c3_capture_amended (chunks : List (List Nat)) (bytes : List Nat)
    (lvl : LogLevel) (pfx : String) :
    (utf8Valid (effStream chunks) = true →
      handle_output chunks lvl pfx =
        ⟨pumpLogsSpec lvl pfx (effStream chunks), .ok (effStream chunks)⟩)
    ∧ (utf8Valid bytes = true →
      local_handle_output bytes lvl pfx =
        ⟨localLogsSpec lvl pfx bytes, .ok (localCaptureSpec bytes)⟩) := by
  exact ⟨handle_output_spec chunks lvl pfx, local_handle_output_spec bytes lvl pfx⟩

/-- C3 witness: the amended pump contracts evaluated on the stream
`"hi\nx"` delivered in two chunks (remote) and as one buffer (local). -/
theorem spec_c3_capture_amended_witness :
    utf8Valid (effStream [[104, 105], [10, 120]]) = true
    ∧ handle_output [[104, 105], [10, 120]] LogLevel.info "stdout: " =
        ⟨pumpLogsSpec LogLevel.info "stdout: " (effStream [[104, 105], [10, 120]]),
          .ok (effStream [[104, 105], [10, 120]])⟩
    ∧ utf8Valid [104, 105, 10, 120] = true
    ∧ local_handle_output [104, 105, 10, 120] LogLevel.info "stdout: " =
        ⟨localLogsSpec LogLevel.info "stdout: " [104, 105, 10, 120],
          .ok (localCaptureSpec [104, 105, 10, 120])⟩ := by
  refine ⟨by decide, ?_, by decide, ?_⟩
  · exact (spec_c3_capture_amended [[104, 105], [10, 120]] [] LogLevel.info "stdout: ").1
      (by decide)
  · exact (spec_c3_capture_amended [] [104, 105, 10, 120] LogLevel.info "stdout: ").2
      (by decide)

/-- Rust's `char::is_ascii_alphanumeric`. -/
def is_ascii_alphanumeric (c : Char) : Bool :=
  decide ((65 ≤ c.toNat ∧ c.toNat ≤ 90) ∨ (97 ≤ c.toNat ∧ c.toNat ≤ 122)
    ∨ (48 ≤ c.toNat ∧ c.toNat ≤ 57))

/-- The argv used by `Apt::is_package_installed`. -/
def dpkgQueryArgv (package : String) : List String :=
  ["dpkg-query", "--show", "--showformat=$\x7bdb:Status-Status\x7d", package]

/-- The command built by `Apt::is_package_installed` (src/recipes/apt.rs,
lines 29-41): hidden command log, hidden stdout and stderr, failure
allowed. -/
def Apt.is_package_installed_cmd (package : String) : Command :=
  (((Session.command (dpkgQueryArgv package)).hide_command).hide_all_output).allowFailure

/-- `Apt::is_package_installed` (src/recipes/apt.rs, lines 28-47): probe the
dpkg status of a package; exit code 0 means the answer is
`stdout == "installed"`, exit code 1 means false, anything else is the error
`command failed`; a failing run propagates its error. -/
def Apt.is_package_installed (package : String) (env : ChildEnv) : Except String Bool :=
  match ((Apt.is_package_installed_cmd package).run env).result with
  | .error e => .error e
  | .ok output =>
    if output.exit_code = 0 then .ok (decide (output.stdout = strBytes "installed"))
    else if output.exit_code = 1 then .ok false
    else .error "command failed"

/-- Environment of one `Apt::install` call: the child behavior of the
`dpkg-query` probe for each package, and of the `apt-get install` run. -/
structure AptInstallEnv where
  probe : String → ChildEnv
  install_env : ChildEnv

/-- Loop of `Apt::install` (src/recipes/apt.rs, lines 50-65): probe every
requested package in order, collecting those not yet installed into
`new_packages`; afterwards, if any remain, run
`apt-get install --yes <new_packages>`. The returned trace lists the argv of
every remote command issued, in order. -/
def Apt.installGo (env : AptInstallEnv) :
    List String → List String → List (List String) → Except String (List (List String))
  | [], new_packages, trace =>
    if new_packages = [] then .ok trace
    else
      match ((Session.command (["apt-get", "install", "--yes"] ++ new_packages)).run
          env.install_env).result with
      | .error e => .error e
      | .ok _ => .ok (trace ++ [["apt-get", "install", "--yes"] ++ new_packages])
  | package :: rest, new_packages, trace =>
    match Apt.is_package_installed package (env.probe package) with
    | .error e => .error e
    | .ok true => Apt.installGo env rest new_packages (trace ++ [dpkgQueryArgv package])
    | .ok false =>
      Apt.installGo env rest (new_packages ++ [package]) (trace ++ [dpkgQueryArgv package])

/-- `Apt::install` (src/recipes/apt.rs, lines 50-65). -/
def Apt.install (packages : List String) (env : AptInstallEnv) :
    Except String (List (List String)) :=
  Apt.installGo env packages [] []

/-- `Apt::update_package_list` (src/recipes/apt.rs, lines 21-25): run
`apt-get update` and mark the session cache (insert `PackageListUpdated`).
Returns the issued trace and the new cache flag. -/
def update_package_list (env : ChildEnv) : Except String (List (List String) × Bool) :=
  match ((Session.command ["apt-get", "update"]).run env).result with
  | .error e => .error e
  | .ok _ => .ok ([["apt-get", "update"]], true)

/-- Environment of `update_package_list_unless_cached`: the elapsed time, in
nanoseconds, since the mtime of `/var/lib/apt/periodic/update-success-stamp`
(`none` when the stamp's metadata or mtime is unavailable — `last_update_time`
returns `None`; `some (.error ())` when `SystemTime::elapsed` fails), and the
child behavior of `apt-get update`. -/
structure FreshEnv where
  last_update_elapsed : Option (Except Unit Nat)
  update_env : ChildEnv

/-- The apt freshness rule `update_package_list_unless_cached`
(src/recipes/apt.rs, lines 83-99): skip when the session cache holds
`PackageListUpdated`; else, if the update stamp exists and is less than
3600 s (`AUTO_UPDATE_PERIOD`) old, log, mark the cache and skip; else run
`update_package_list`. -/
def update_package_list_unless_cached (cache : Bool) (env : FreshEnv) :
    Except String (List (List String) × Bool) :=
  if cache then .ok ([], cache)
  else
    match env.last_update_elapsed with
    | some (.error _) => .error "system time error"
    | some (.ok elapsed) =>
      if elapsed < 3600 * 1000000000 then .ok ([], true)
      else update_package_list env.update_env
    | none => update_package_list env.update_env

theorem Apt.installGo_probe_spec (env : AptInstallEnv) (f : String → Bool) :
    ∀ ps new trace, (∀ p ∈ ps, Apt.is_package_installed p (env.probe p) = .ok (f p)) →
      Apt.installGo env ps new trace =
        Apt.installGo env [] (new ++ ps.filter (fun p => !f p))
          (trace ++ ps.map dpkgQueryArgv) := by
  intro ps
  induction ps with
  | nil =>
    intro new trace _
    simp
  | cons p rest ih =>
    intro new trace h
    have hp := h p (by simp)
    show (match Apt.is_package_installed p (env.probe p) with
      | Except.error e => (Except.error e : Except String (List (List String)))
      | Except.ok true => Apt.installGo env rest new (trace ++ [dpkgQueryArgv p])
      | Except.ok false =>
        Apt.installGo env rest (new ++ [p]) (trace ++ [dpkgQueryArgv p])) = _
    rw [hp]
    cases hfp : f p with
    | true =>
      show Apt.installGo env rest new (trace ++ [dpkgQueryArgv p]) = _
      rw [ih new (trace ++ [dpkgQueryArgv p]) (fun q hq => h q (by simp [hq]))]
      simp [hfp]
    | false =>
      show Apt.installGo env rest (new ++ [p]) (trace ++ [dpkgQueryArgv p]) = _
      rw [ih (new ++ [p]) (trace ++ [dpkgQueryArgv p]) (fun q hq => h q (by simp [hq]))]
      simp [hfp]

theorem Apt.installGo_no_update (env : AptInstallEnv) :
    ∀ ps new trace, (∀ t ∈ trace, t ≠ ["apt-get", "update"]) →
      ∀ tr, Apt.installGo env ps new trace = .ok tr →
        ["apt-get", "update"] ∉ tr := by
  intro ps
  induction ps with
  | nil =>
    intro new trace htr tr hok
    by_cases hnew : new = []
    · simp only [Apt.installGo, hnew, if_pos rfl] at hok
      cases hok
      intro hmem
      exact htr _ hmem rfl
    · simp only [Apt.installGo, if_neg hnew] at hok
      cases hrun : ((Session.command (["apt-get", "install", "--yes"] ++ new)).run
          env.install_env).result with
      | error e => rw [hrun] at hok; simp at hok
      | ok out =>
        rw [hrun] at hok
        simp only [Except.ok.injEq] at hok
        subst hok
        intro hmem
        rcases List.mem_append.mp hmem with hmem | hmem
        · exact htr _ hmem rfl
        · simp at hmem
  | cons p rest ih =>
    intro new trace htr tr hok
    simp only [Apt.installGo] at hok
    cases hp : Apt.is_package_installed p (env.probe p) with
    | error e => rw [hp] at hok; simp at hok
    | ok b =>
      rw [hp] at hok
      have htr' : ∀ t ∈ trace ++ [dpkgQueryArgv p], t ≠ ["apt-get", "update"] := by
        intro t ht
        rcases List.mem_append.mp ht with ht | ht
        · exact htr t ht
        · simp at ht
          subst ht
          simp [dpkgQueryArgv]
      cases b with
      | true => exact ih new (trace ++ [dpkgQueryArgv p]) htr' tr hok
      | false => exact ih (new ++ [p]) (trace ++ [dpkgQueryArgv p]) htr' tr hok

/-- C6 counterexample. `Apt::install` never issues `apt-get update`: with one
package to install (probe answers exit 1, i.e. not installed) the full trace
of remote commands is the `dpkg-query` probe followed directly by
`apt-get install --yes rolldice`. The claim's freshness step — which in the
stale state (no session cache mark, no recent update stamp) would require an
`apt-get update` before the install — does not appear; `install` does not
even consult the cache or the stamp. -/
theorem spec_c6_apt_install_counterexample :
    Apt.install ["rolldice"]
        ⟨fun _ => ⟨true, true, some 1, [], []⟩, ⟨true, true, some 0, [], []⟩⟩
      = .ok [dpkgQueryArgv "rolldice", ["apt-get", "install", "--yes", "rolldice"]]
    ∧ ["apt-get", "update"] ∉
        [dpkgQueryArgv "rolldice", ["apt-get", "install", "--yes", "rolldice"]] := by
  exact ⟨by decide, by decide⟩

/-- C6 (amended). `Apt::install` filters out the already-installed packages,
probing each in order; when packages remain it runs `apt-get install --yes`
with exactly the remaining packages in order, and when none remain no
install command is run — but, contrary to the claim, it does not ensure the
package list is fresh: no `apt-get update` is ever issued by `install`. The
freshness rule itself is implemented exactly as the claim states, by
`update_package_list_unless_cached` (skip when the session cache is marked;
else mark-and-skip when the update stamp is younger than 3600 s; else run
`update_package_list`), but that function is called only by
`upgrade_system`, not by `install`. -/
theorem spec_c6_apt_install_amended (packages : List String) (env : AptInstallEnv)
    (f : String → Bool)
    (hprobe : ∀ p ∈ packages, Apt.is_package_installed p (env.probe p) = .ok (f p)) :
    (packages.filter (fun p => !f p) = [] →
      Apt.install packages env = .ok (packages.map dpkgQueryArgv))
    ∧ (∀ out, packages.filter (fun p => !f p) ≠ [] →
        ((Session.command (["apt-get", "install", "--yes"] ++
          packages.filter (fun p => !f p))).run env.install_env).result = .ok out →
        Apt.install packages env = .ok (packages.map dpkgQueryArgv ++
          [["apt-get", "install", "--yes"] ++ packages.filter (fun p => !f p)]))
    ∧ (∀ tr, Apt.install packages env = .ok tr → ["apt-get", "update"] ∉ tr)
    ∧ (∀ (fenv : FreshEnv) (e : Nat),
        update_package_list_unless_cached true fenv = .ok ([], true)
        ∧ (fenv.last_update_elapsed = some (.ok e) → e < 3600 * 1000000000 →
            update_package_list_unless_cached false fenv = .ok ([], true))
        ∧ (fenv.last_update_elapsed = some (.ok e) → ¬ e < 3600 * 1000000000 →
            update_package_list_unless_cached false fenv = update_package_list fenv.update_env)
        ∧ (fenv.last_update_elapsed = none →
            update_package_list_unless_cached false fenv = update_package_list fenv.update_env)) := by
  have hgo := Apt.installGo_probe_spec env f packages [] [] hprobe
  refine ⟨?_, ?_, ?_, ?_⟩
  · intro hfil
    unfold Apt.install
    rw [hgo, hfil]
    simp [Apt.installGo]
  · intro out hfil hrun
    unfold Apt.install
    rw [hgo]
    simp only [List.nil_append]
    unfold Apt.installGo
    rw [if_neg hfil, hrun]
  · intro tr h
    exact Apt.installGo_no_update env packages [] [] (by simp) tr h
  · intro fenv e
    refine ⟨?_, ?_, ?_, ?_⟩
    · simp [update_package_list_unless_cached]
    · intro h1 h2
      simp [update_package_list_unless_cached, h1, h2]
    · intro h1 h2
      simp [update_package_list_unless_cached, h1, h2]
    · intro h1
      simp [update_package_list_unless_cached, h1]

/-- C6 witness: the amended install contract evaluated with one
not-yet-installed package. -/
theorem spec_c6_apt_install_amended_witness :
    (∀ p ∈ ["rolldice"], Apt.is_package_installed p
        ((fun _ => (⟨true, true, some 1, [], []⟩ : ChildEnv)) p) = .ok ((fun _ => false) p))
    ∧ Apt.install ["rolldice"]
        ⟨fun _ => ⟨true, true, some 1, [], []⟩, ⟨true, true, some 0, [], []⟩⟩
      = .ok [dpkgQueryArgv "rolldice", ["apt-get", "install", "--yes", "rolldice"]] := by
  have hpr : ∀ p ∈ ["rolldice"], Apt.is_package_installed p
      ((fun _ => (⟨true, true, some 1, [], []⟩ : ChildEnv)) p) = .ok ((fun _ => false) p) := by
    intro p hp
    simp only [List.mem_singleton] at hp
    subst hp
    decide
  refine ⟨hpr, ?_⟩
  have h := (spec_c6_apt_install_amended ["rolldice"]
    ⟨fun _ => ⟨true, true, some 1, [], []⟩, ⟨true, true, some 0, [], []⟩⟩
    (fun _ => false) hpr).2.1 ⟨0, [], []⟩ (by decide) (by decide)
  simpa using h

/-- C9. `Apt::is_package_installed p` builds exactly the command
`dpkg-query --show --showformat=${db:Status-Status} p` with allow-failure
set and hidden logging (command, stdout and stderr severities all lowered to
trace); when the run succeeds, exit code 0 yields exactly
`stdout == "installed"`, exit code 1 yields false, and any other exit code
is the error `command failed`; a failing run propagates its error. -/
theorem spec_c9_dpkg_probe (p : String) (env : ChildEnv) :
    (Apt.is_package_installed_cmd p).command = (dpkgQueryArgv p).map Arg.escaped
    ∧ (Apt.is_package_installed_cmd p).allow_failure = true
    ∧ (Apt.is_package_installed_cmd p).command_log_level = .trace
    ∧ (Apt.is_package_installed_cmd p).stdout_log_level = .trace
    ∧ (Apt.is_package_installed_cmd p).stderr_log_level = .trace
    ∧ (∀ output, ((Apt.is_package_installed_cmd p).run env).result = .ok output →
        (output.exit_code = 0 →
          Apt.is_package_installed p env = .ok (decide (output.stdout = strBytes "installed")))
        ∧ (output.exit_code = 1 → Apt.is_package_installed p env = .ok false)
        ∧ (output.exit_code ≠ 0 → output.exit_code ≠ 1 →
          Apt.is_package_installed p env = .error "command failed"))
    ∧ (∀ e, ((Apt.is_package_installed_cmd p).run env).result = .error e →
        Apt.is_package_installed p env = .error e) := by
  refine ⟨rfl, rfl, rfl, rfl, rfl, ?_, ?_⟩
  · intro output hok
    refine ⟨?_, ?_, ?_⟩
    · intro h0
      unfold Apt.is_package_installed
      rw [hok]
      simp [h0]
    · intro h1
      unfold Apt.is_package_installed
      rw [hok]
      simp [h1]
    · intro h0 h1
      unfold Apt.is_package_installed
      rw [hok]
      simp [h0, h1]
  · intro e herr
    unfold Apt.is_package_installed
    rw [herr]

/-- C9 witness: the probe evaluated on exit code 0 with stdout `installed`
(true), and on exit code 1 (false). -/
theorem spec_c9_dpkg_probe_witness :
    Apt.is_package_installed "rolldice"
        ⟨true, true, some 0, [strBytes "installed"], []⟩ = .ok true
    ∧ Apt.is_package_installed "rolldice" ⟨true, true, some 1, [], []⟩ = .ok false := by
  constructor
  · have h := ((spec_c9_dpkg_probe "rolldice"
        ⟨true, true, some 0, [strBytes "installed"], []⟩).2.2.2.2.2.1
      ⟨0, strBytes "installed", []⟩ (by decide)).1 rfl
    simpa using h
  · exact ((spec_c9_dpkg_probe "rolldice" ⟨true, true, some 1, [], []⟩).2.2.2.2.2.1
      ⟨1, [], []⟩ (by decide)).2.1 rfl

/-- Session attributes consulted by `upload` (spec data model: the
destination string plus the resolved user and port). -/
structure SessionInfo where
  destination : String
  user : Option String
  port : Option Nat

/-- Environment of one `upload` call: the SFTP metadata answer for
`remote_parent_path` — an SFTP error, a metadata record with no file type,
or a file type with its is-directory flag — and the child behavior of the
local rsync run. -/
structure UploadEnv where
  metadata : Except Unit (Option Bool)
  rsync_env : LocalChildEnv

/-- Everything observable about one `upload` call: the result, whether the
local rsync run was invoked (`LocalCommand::run` reached), the local command
value built for it, and the remote commands issued. The current `upload`
(src/recipes/rsync.rs) issues no remote command at all — per its
documentation rsync is required to already be available remotely — so
`remote_cmds` is `[]` on every path. -/
structure UploadResult where
  result : Except String Unit
  invoked_rsync : Bool
  rsync_command : Option LocalCommand
  remote_cmds : List (List String)

/-- The local command value at the end of `Session::upload`
(src/recipes/rsync.rs, lines 58-77): the command so far, then each local
path, then `--rsh "ssh -p <port>"` when the session has a resolved port,
then the destination `[user@]host:remote_parent_path`. Local paths are
modelled as strings; the non-UTF-8 `to_str` failure path is not modelled. -/
def uploadCommandFor (s : SessionInfo) (local_paths : List String)
    (remote_parent_path : String) (command : LocalCommand) : LocalCommand :=
  ((match s.port with
    | some port => (command.args local_paths).args ["--rsh", "ssh -p " ++ toString port]
    | none => command.args local_paths).arg
      ((match s.user with
        | some user => user ++ "@" ++ s.destination
        | none => s.destination) ++ ":" ++ remote_parent_path))

/-- Tail of `Session::upload` (src/recipes/rsync.rs, lines 58-79): build the
final local command and run it; its output is discarded and only errors
propagate. -/
def uploadFinish (s : SessionInfo) (local_paths : List String)
    (remote_parent_path : String) (command : LocalCommand)
    (env : UploadEnv) : UploadResult :=
  match ((uploadCommandFor s local_paths remote_parent_path command).run
      env.rsync_env).result with
  | .error e =>
    ⟨.error e, true, some (uploadCommandFor s local_paths remote_parent_path command), []⟩
  | .ok _ =>
    ⟨.ok (), true, some (uploadCommandFor s local_paths remote_parent_path command), []⟩

/-- `Session::upload` (src/recipes/rsync.rs, lines 17-82), clause by clause:
first check via SFTP metadata that `remote_parent_path` is a directory
(error propagation, missing-file-type context, not-a-directory bail, in
source order); build the local rsync command with the fixed flag set and a
hidden command log; when `remote_user` is supplied, bail with `unsafe user`
if any of its characters falls outside ASCII alphanumerics, `.`, `_`, `-`,
and otherwise add `--rsync-path "sudo --user <user> rsync"`; then finish and
run (`uploadFinish`). -/
def Session.upload (s : SessionInfo) (local_paths : List String)
    (remote_parent_path : String) (remote_user : Option String)
    (env : UploadEnv) : UploadResult :=
  match env.metadata with
  | .error _ => ⟨.error "metadata error", false, none, []⟩
  | .ok none => ⟨.error "missing file type for remote_parent_path", false, none, []⟩
  | .ok (some false) =>
    ⟨.error ("upload destination " ++ rustDebugStr remote_parent_path ++
      " is not a directory"), false, none, []⟩
  | .ok (some true) =>
    let command := (LocalCommand.new ["rsync", "--itemize-changes", "--recursive",
      "--links", "--perms", "--times", "--compress", "--delete"]).hide_command
    match remote_user with
    | some remote_user =>
      if remote_user.data.any (fun c =>
          !(is_ascii_alphanumeric c || c = '.' || c = '_' || c = '-')) then
        ⟨.error ("unsafe user: " ++ rustDebugStr remote_user), false, none, []⟩
      else
        uploadFinish s local_paths remote_parent_path
          ((command.arg "--rsync-path").arg ("sudo --user " ++ remote_user ++ " rsync")) env
    | none => uploadFinish s local_paths remote_parent_path command env

theorem uploadFinish_invoked (s : SessionInfo) (lp : List String) (rp : String)
    (cmd : LocalCommand) (env : UploadEnv) :
    (uploadFinish s lp rp cmd env).invoked_rsync = true := by
  unfold uploadFinish
  split <;> rfl

theorem uploadFinish_remote (s : SessionInfo) (lp : List String) (rp : String)
    (cmd : LocalCommand) (env : UploadEnv) :
    (uploadFinish s lp rp cmd env).remote_cmds = [] := by
  unfold uploadFinish
  split <;> rfl

theorem uploadFinish_command (s : SessionInfo) (lp : List String) (rp : String)
    (cmd : LocalCommand) (env : UploadEnv) :
    (uploadFinish s lp rp cmd env).rsync_command =
      some (uploadCommandFor s lp rp cmd) := by
  unfold uploadFinish
  split <;> rfl

/-- C7 counterexample. The empty remote user does not match the claim's
character class `[A-Za-z0-9._-]+` (which requires at least one character),
yet `upload` accepts it: with a directory destination and
`remote_user = Some("")`, `upload` proceeds to invoke rsync and succeeds
instead of failing with `unsafe user` — the source rejects a user only when
some character falls outside the class, and the empty string has none. -/
theorem spec_c7_upload_checks_counterexample :
    (Session.upload ⟨"host", none, none⟩ ["f"] "/srv" (some "")
        ⟨.ok (some true), ⟨true, true, some 0, [], []⟩⟩).result = .ok ()
    ∧ (Session.upload ⟨"host", none, none⟩ ["f"] "/srv" (some "")
        ⟨.ok (some true), ⟨true, true, some 0, [], []⟩⟩).invoked_rsync = true := by
  exact ⟨by decide, by decide⟩

/-- C7 (amended). `upload` checks via SFTP metadata, before anything else,
that the destination is a directory: a not-a-directory answer fails with the
descriptive error, and any metadata failure (error or missing file type)
likewise returns before rsync is invoked. For a supplied `remote_user`,
every character must lie in the class `[A-Za-z0-9._-]`: a user containing
any other character fails with `unsafe user` before rsync is invoked, and a
user all of whose characters are in the class — including the empty user,
which the original claim's `+` would reject — is accepted and rsync is
invoked. -/
theorem spec_c7_upload_checks_amended (s : SessionInfo) (local_paths : List String)
    (rpath : String) (ruser : Option String) (env : UploadEnv) :
    (env.metadata = .ok (some false) →
      (Session.upload s local_paths rpath ruser env).result =
        .error ("upload destination " ++ rustDebugStr rpath ++ " is not a directory")
      ∧ (Session.upload s local_paths rpath ruser env).invoked_rsync = false)
    ∧ (env.metadata = .error () →
      (Session.upload s local_paths rpath ruser env).invoked_rsync = false)
    ∧ (env.metadata = .ok none →
      (Session.upload s local_paths rpath ruser env).invoked_rsync = false)
    ∧ (∀ u, env.metadata = .ok (some true) → ruser = some u →
        u.data.any (fun c =>
          !(is_ascii_alphanumeric c || c = '.' || c = '_' || c = '-')) = true →
        (Session.upload s local_paths rpath ruser env).result =
          .error ("unsafe user: " ++ rustDebugStr u)
        ∧ (Session.upload s local_paths rpath ruser env).invoked_rsync = false)
    ∧ (∀ u, env.metadata = .ok (some true) → ruser = some u →
        u.data.all (fun c =>
          is_ascii_alphanumeric c || c = '.' || c = '_' || c = '-') = true →
        (Session.upload s local_paths rpath ruser env).invoked_rsync = true) := by
  refine ⟨?_, ?_, ?_, ?_, ?_⟩
  · intro hmeta
    exact ⟨by simp [Session.upload, hmeta], by simp [Session.upload, hmeta]⟩
  · intro hmeta
    simp [Session.upload, hmeta]
  · intro hmeta
    simp [Session.upload, hmeta]
  · intro u hmeta hu hbad
    subst hu
    constructor
    · simp only [Session.upload, hmeta]
      rw [if_pos hbad]
    · simp only [Session.upload, hmeta]
      rw [if_pos hbad]
  · intro u hmeta hu hall
    subst hu
    have hany : (u.data.any (fun c =>
        !(is_ascii_alphanumeric c || c = '.' || c = '_' || c = '-'))) = false := by
      rw [List.any_eq_false]
      intro c hc
      have h := List.all_eq_true.mp hall c hc
      simp [h]
    simp only [Session.upload, hmeta]
    rw [if_neg (by rw [hany]; exact Bool.false_ne_true)]
    exact uploadFinish_invoked _ _ _ _ _

/-- C7 witness: the directory check and the user check evaluated at concrete
inputs — a non-directory destination fails before rsync, and a user with a
character outside the class fails with `unsafe user` before rsync. -/
theorem spec_c7_upload_checks_amended_witness :
    ((Session.upload ⟨"host", none, none⟩ ["f"] "/srv" none
        ⟨.ok (some false), ⟨true, true, some 0, [], []⟩⟩).result =
      .error ("upload destination " ++ rustDebugStr "/srv" ++ " is not a directory")
    ∧ (Session.upload ⟨"host", none, none⟩ ["f"] "/srv" none
        ⟨.ok (some false), ⟨true, true, some 0, [], []⟩⟩).invoked_rsync = false)
    ∧ ((Session.upload ⟨"host", none, none⟩ ["f"] "/srv" (some "a b")
        ⟨.ok (some true), ⟨true, true, some 0, [], []⟩⟩).result =
      .error ("unsafe user: " ++ rustDebugStr "a b")
    ∧ (Session.upload ⟨"host", none, none⟩ ["f"] "/srv" (some "a b")
        ⟨.ok (some true), ⟨true, true, some 0, [], []⟩⟩).invoked_rsync = false) := by
  constructor
  · exact (spec_c7_upload_checks_amended ⟨"host", none, none⟩ ["f"] "/srv" none
      ⟨.ok (some false), ⟨true, true, some 0, [], []⟩⟩).1 rfl
  · exact (spec_c7_upload_checks_amended ⟨"host", none, none⟩ ["f"] "/srv" (some "a b")
      ⟨.ok (some true), ⟨true, true, some 0, [], []⟩⟩).2.2.2.1 "a b" rfl rfl (by decide)

/-- C8 counterexample. A successful `upload` issues no remote command at
all: the remote-command trace is empty, so no apt recipe runs and rsync is
never installed remotely — contrary to the claim, which requires an
apt-based installation step before the local rsync run. (The function's
documentation instead requires rsync to already be available remotely.) -/
theorem spec_c8_rsync_argv_counterexample :
    (Session.upload ⟨"host", none, none⟩ ["f"] "/srv" none
        ⟨.ok (some true), ⟨true, true, some 0, [], []⟩⟩).remote_cmds = []
    ∧ (Session.upload ⟨"host", none, none⟩ ["f"] "/srv" none
        ⟨.ok (some true), ⟨true, true, some 0, [], []⟩⟩).result = .ok ()
    ∧ (Session.upload ⟨"host", none, none⟩ ["f"] "/srv" none
        ⟨.ok (some true), ⟨true, true, some 0, [], []⟩⟩).invoked_rsync = true := by
  exact ⟨by decide, by decide, by decide⟩

/-- C8 (amended). After the precondition checks pass, `upload` runs a local
rsync whose argv is exactly: `rsync` with the flags `--itemize-changes
--recursive --links --perms --times --compress --delete`, then
`--rsync-path "sudo --user <user> rsync"` when `remote_user` is set, then
each local path in order, then `--rsh "ssh -p <port>"` when the session has
a resolved port, and finally `[user@]destination:remote_parent_path`, with
the local command's own log hidden. Contrary to the claim, `upload` does
not first ensure rsync is installed remotely via the apt recipe: it issues
no remote command on any path. -/
theorem spec_c8_rsync_argv_amended (s : SessionInfo) (local_paths : List String)
    (rpath : String) (env : UploadEnv) (hmeta : env.metadata = .ok (some true)) :
    ((Session.upload s local_paths rpath none env).rsync_command =
      some ⟨["rsync", "--itemize-changes", "--recursive", "--links", "--perms",
          "--times", "--compress", "--delete"] ++ local_paths ++
          (match s.port with
           | some port => ["--rsh", "ssh -p " ++ toString port]
           | none => []) ++
          [(match s.user with
            | some user => user ++ "@" ++ s.destination
            | none => s.destination) ++ ":" ++ rpath],
        .trace, .info, .error, false⟩)
    ∧ (∀ u, u.data.all (fun c =>
          is_ascii_alphanumeric c || c = '.' || c = '_' || c = '-') = true →
        (Session.upload s local_paths rpath (some u) env).rsync_command =
          some ⟨["rsync", "--itemize-changes", "--recursive", "--links", "--perms",
              "--times", "--compress", "--delete"] ++
              ["--rsync-path", "sudo --user " ++ u ++ " rsync"] ++ local_paths ++
              (match s.port with
               | some port => ["--rsh", "ssh -p " ++ toString port]
               | none => []) ++
              [(match s.user with
                | some user => user ++ "@" ++ s.destination
                | none => s.destination) ++ ":" ++ rpath],
            .trace, .info, .error, false⟩)
    ∧ (∀ lp rp ru env', (Session.upload s lp rp ru env').remote_cmds = []) := by
  refine ⟨?_, ?_, ?_⟩
  · simp only [Session.upload, hmeta]
    rw [uploadFinish_command]
    cases hp : s.port <;> cases hu : s.user <;>
      simp [uploadCommandFor, LocalCommand.new, LocalCommand.hide_command,
        LocalCommand.arg, LocalCommand.args, hp, hu]
  · intro u hall
    have hany : (u.data.any (fun c =>
        !(is_ascii_alphanumeric c || c = '.' || c = '_' || c = '-'))) = false := by
      rw [List.any_eq_false]
      intro c hc
      have h := List.all_eq_true.mp hall c hc
      simp [h]
    simp only [Session.upload, hmeta]
    rw [if_neg (by rw [hany]; exact Bool.false_ne_true)]
    rw [uploadFinish_command]
    cases hp : s.port <;> cases hu : s.user <;>
      simp [uploadCommandFor, LocalCommand.new, LocalCommand.hide_command,
        LocalCommand.arg, LocalCommand.args, hp, hu]
  · intro lp rp ru env'
    cases hm : env'.metadata with
    | error e => simp [Session.upload, hm]
    | ok mo =>
      cases mo with
      | none => simp [Session.upload, hm]
      | some b =>
        cases b with
        | false => simp [Session.upload, hm]
        | true =>
          cases ru with
          | none =>
            simp only [Session.upload, hm]
            exact uploadFinish_remote _ _ _ _ _
          | some u =>
            simp only [Session.upload, hm]
            by_cases hbad : (u.data.any (fun c =>
                !(is_ascii_alphanumeric c || c = '.' || c = '_' || c = '-'))) = true
            · rw [if_pos hbad]
            · rw [if_neg hbad]
              exact uploadFinish_remote _ _ _ _ _

/-- C8 witness: the exact rsync argv for a session with a resolved user and
port, two local paths and no remote user. -/
theorem spec_c8_rsync_argv_amended_witness :
    (Session.upload ⟨"host", some "root", some 2222⟩ ["a", "b"] "/srv" none
        ⟨.ok (some true), ⟨true, true, some 0, [], []⟩⟩).rsync_command =
      some ⟨["rsync", "--itemize-changes", "--recursive", "--links", "--perms",
          "--times", "--compress", "--delete"] ++ ["a", "b"] ++
          ["--rsh", "ssh -p " ++ toString (2222 : Nat)] ++
          ["root" ++ "@" ++ "host" ++ ":" ++ "/srv"],
        .trace, .info, .error, false⟩ :=
  (spec_c8_rsync_argv_amended ⟨"host", some "root", some 2222⟩ ["a", "b"] "/srv"
    ⟨.ok (some true), ⟨true, true, some 0, [], []⟩⟩ rfl).1

/-- The single-quote character. -/
def squote : Char := Char.ofNat 39

/-- `format_sql_query::QuotedData`: wrap a string in single quotes, doubling
every embedded single quote. -/
def QuotedData (s : String) : String :=
  String.singleton squote ++
    String.join (s.data.map (fun c =>
      if c = squote then String.singleton squote ++ String.singleton squote
      else String.singleton c)) ++
    String.singleton squote

/-- The role-existence probe command of
`Postgres::create_user_with_password` (src/recipes/postgres.rs, lines
25-39): a `--tuples-only` SELECT on `pg_roles`, wrapped in
`sudo --user postgres --login`, with hidden command log and hidden stdout. -/
def Postgres.probe_user_cmd (user : String) : Command :=
  (((Session.command ["psql", "--tuples-only", "--command",
      "SELECT 1 FROM pg_roles WHERE rolname = " ++ QuotedData user]).prepend_args
      ["sudo", "--user", "postgres", "--login"]).hide_command).hide_stdout

/-- The `CREATE USER` command of `Postgres::create_user_with_password`
(src/recipes/postgres.rs, lines 45-60): `psql --command` plus one redacted
argument whose transmitted SQL carries the real password and whose log
placeholder carries `'<redacted>'` instead, wrapped in
`sudo --user postgres --login`. -/
def Postgres.create_user_cmd (user password : String) : Command :=
  ((Session.command ["psql", "--command"]).redacted_arg
      ("CREATE USER " ++ user ++ " WITH PASSWORD " ++ QuotedData password)
      ("CREATE USER " ++ user ++ " WITH PASSWORD " ++ QuotedData "<redacted>")).prepend_args
    ["sudo", "--user", "postgres", "--login"]

/-- Environment of one `create_user_with_password` call. -/
structure PgEnv where
  probe_env : ChildEnv
  create_env : ChildEnv

/-- Result of one `create_user_with_password` call: the returned value and
the remote commands issued, in order. -/
structure PgResult where
  result : Except String Unit
  trace : List Command

/-- `Postgres::create_user_with_password` (src/recipes/postgres.rs, lines
20-64): validate the user name (ASCII alphanumerics and `_`); run the
probe (without allow-failure, so a psql failure propagates); the user is
taken to exist exactly when the captured stdout contains the character `1`
(byte 49 — on valid UTF-8 text, byte membership coincides with Rust's
`str::contains('1')`) anywhere; when it does, return without issuing
anything further (an existing user's password is never changed); when it
does not, issue exactly one `CREATE USER` command. -/
def Postgres.create_user_with_password (user password : String) (env : PgEnv) : PgResult :=
  if !user.data.all (fun c => is_ascii_alphanumeric c || c = '_') then
    ⟨.error "invalid postgres user name", []⟩
  else
    match ((Postgres.probe_user_cmd user).run env.probe_env).result with
    | .error e => ⟨.error e, [Postgres.probe_user_cmd user]⟩
    | .ok output =>
      if 49 ∈ output.stdout then ⟨.ok (), [Postgres.probe_user_cmd user]⟩
      else
        match ((Postgres.create_user_cmd user password).run env.create_env).result with
        | .error e =>
          ⟨.error e, [Postgres.probe_user_cmd user, Postgres.create_user_cmd user password]⟩
        | .ok _ =>
          ⟨.ok (), [Postgres.probe_user_cmd user, Postgres.create_user_cmd user password]⟩

/-- C10. For a valid user name, when the probe run succeeds
`create_user_with_password` decides that the user exists exactly when the
probe's captured stdout contains the byte of `1` anywhere: when it does, the
command trace is just the probe — no `CREATE USER` command is issued, so an
existing user's password is never changed — and when it does not, the trace
is the probe followed by exactly one `CREATE USER` command (which is
distinct from the probe command). -/
theorem spec_c10_pg_create_user (user password : String) (env : PgEnv)
    (huser : user.data.all (fun c => is_ascii_alphanumeric c || c = '_') = true) :
    (∀ output, ((Postgres.probe_user_cmd user).run env.probe_env).result = .ok output →
      (49 ∈ output.stdout →
        Postgres.create_user_with_password user password env =
          ⟨.ok (), [Postgres.probe_user_cmd user]⟩)
      ∧ (49 ∉ output.stdout →
        (Postgres.create_user_with_password user password env).trace =
          [Postgres.probe_user_cmd user, Postgres.create_user_cmd user password]))
    ∧ Postgres.probe_user_cmd user ≠ Postgres.create_user_cmd user password := by
  constructor
  · intro output hok
    constructor
    · intro hmem
      unfold Postgres.create_user_with_password
      rw [if_neg (by rw [huser]; simp)]
      simp only [hok]
      rw [if_pos hmem]
    · intro hmem
      unfold Postgres.create_user_with_password
      rw [if_neg (by rw [huser]; simp)]
      simp only [hok]
      rw [if_neg hmem]
      cases hc : ((Postgres.create_user_cmd user password).run env.create_env).result with
      | error e => simp [hc]
      | ok out => simp [hc]
  · intro hcontra
    have := congrArg (fun c => c.command.length) hcontra
    simp [Postgres.probe_user_cmd, Postgres.create_user_cmd, Session.command,
      Command.prepend_args, Command.hide_command, Command.hide_stdout,
      Command.redacted_arg] at this

/-- C10 witness: the probe answering ` 1` (user exists — no CREATE USER)
and the probe answering an empty stdout (user absent — exactly one CREATE
USER). -/
theorem spec_c10_pg_create_user_witness :
    (Postgres.create_user_with_password "user1" "pw"
        ⟨⟨true, true, some 0, [strBytes " 1"], []⟩, ⟨true, true, some 0, [], []⟩⟩ =
      ⟨.ok (), [Postgres.probe_user_cmd "user1"]⟩)
    ∧ ((Postgres.create_user_with_password "user1" "pw"
        ⟨⟨true, true, some 0, [], []⟩, ⟨true, true, some 0, [], []⟩⟩).trace =
      [Postgres.probe_user_cmd "user1", Postgres.create_user_cmd "user1" "pw"]) := by
  constructor
  · exact ((spec_c10_pg_create_user "user1" "pw"
      ⟨⟨true, true, some 0, [strBytes " 1"], []⟩, ⟨true, true, some 0, [], []⟩⟩
      (by decide)).1 ⟨0, strBytes " 1", []⟩ (by decide)).1 (by decide)
  · exact ((spec_c10_pg_create_user "user1" "pw"
      ⟨⟨true, true, some 0, [], []⟩, ⟨true, true, some 0, [], []⟩⟩
      (by decide)).1 ⟨0, [], []⟩ (by decide)).2 (by decide)
